import Mathlib

/-!
# Verification of the circuit-animation geometry engine

This file gives a shallow embedding, over the rationals, of the geometry and
circuit-animation core of the diagram-editor repository:

* `getAnchorPosition`, `findNearestAnchor` from `app/composables/useCanvasState.ts`;
* `getShapeCenter`, `getPointOnShapePerimeter`, `calculateTransitionLength`,
  `easeInOutCubic`, `getPointOnStraightLine`, `getPointOnCurve`,
  `calculatePathLength`, `getPointOnPath`, `getExitAnchor`, `getEntryAnchor`,
  `buildCircuit`, `getPointOnCircuit`, `generateSnakeSegment` and the pure part
  of the per-frame `animate` step from the path-animation composable.

JavaScript numbers are modelled as `ℚ`; the transcendental pieces of the JS
`Math` object (`sqrt`, `cos`, `sin`, `PI`) are supplied as an explicit record
`JsMath`, so every definition stays executable and theorems state exactly
which analytic facts about the math library they rely on.  JS `%` (truncated
remainder) is modelled by `jsMod`.
-/

namespace LoadingUtils

/-- The fragment of the JavaScript `Math` object used by the geometry core.
`sqrt`, `cos`, `sin` are the (approximate, total) library functions and `pi`
the library constant; theorems assume only the analytic properties of these
fields that each claim actually needs. -/
structure JsMath where
  sqrt : ℚ → ℚ
  cos : ℚ → ℚ
  sin : ℚ → ℚ
  pi : ℚ

/-- A 2D pixel point `{ x, y }`. -/
structure Point where
  x : ℚ
  y : ℚ
deriving DecidableEq, Repr

/-- Shape kind tag: the TS union `'square' | 'triangle' | 'circle'`. -/
inductive ShapeType where
  | square
  | triangle
  | circle
deriving DecidableEq, Repr

/-- `BaseShape` from `app/types/canvas.ts`: position `(x, y)` (top-left corner
for square/triangle, center for circle), optional dimensions, fill color. -/
structure BaseShape where
  id : String
  x : ℚ
  y : ℚ
  type : ShapeType
  width : Option ℚ := none
  height : Option ℚ := none
  radius : Option ℚ := none
  fill : String := ""
deriving DecidableEq, Repr

/-- `ConnectionAnchor`: a normalized perimeter position. -/
structure ConnectionAnchor where
  position : ℚ
deriving DecidableEq, Repr

/-- `Connection` from `app/types/canvas.ts`.  The animation code guards every
anchor access with a JS truthiness check (`connection.fromAnchor ? … : …`),
so the anchors are embedded as `Option`; `curveOffset` is `null` for a
straight line or a vector offset from the midpoint for a curve. -/
structure Connection where
  id : String
  fromShapeId : String
  toShapeId : String
  fromAnchor : Option ConnectionAnchor := none
  toAnchor : Option ConnectionAnchor := none
  stroke : String := ""
  curveOffset : Option Point := none
deriving DecidableEq, Repr

/-- JS truncation toward zero of a rational (the implicit rounding in the JS
`%` operator). -/
def jsTrunc (q : ℚ) : ℤ :=
  if 0 ≤ q then ⌊q⌋ else ⌈q⌉

/-- The JS `%` operator on numbers: truncated remainder, `a - b * trunc (a / b)`.
Its sign follows the dividend. -/
def jsMod (a b : ℚ) : ℚ :=
  a - b * (jsTrunc (a / b) : ℚ)

/-- `getShapeCenter` (path-animation composable): circle → `(x, y)`, others →
`(x + width / 2, y + height / 2)` with 40-pixel defaults. -/
def getShapeCenter (shape : BaseShape) : Point :=
  if shape.type = ShapeType.circle then
    { x := shape.x, y := shape.y }
  else
    let width := shape.width.getD 40
    let height := shape.height.getD 40
    { x := shape.x + width / 2, y := shape.y + height / 2 }

/-- `getAnchorPosition` from `useCanvasState.ts`: pixel coordinates of an
anchor position on a shape's perimeter.
Circle: angle `position·2π − π/2`, point `center + r·(cos θ, sin θ)`.
Square: walk top, right, bottom, left edges by `distance = position · 2(w+h)`.
Triangle: vertices bottom-left, top-center, bottom-right; walk left edge,
bottom edge, right edge proportionally to their Euclidean lengths. -/
def getAnchorPosition (M : JsMath) (shape : BaseShape) (anchor : ConnectionAnchor) : Point :=
  let position := anchor.position
  match shape.type with
  | ShapeType.circle =>
      let radius := shape.radius.getD 20
      let angle := (position * M.pi * 2) - M.pi / 2
      { x := shape.x + radius * M.cos angle,
        y := shape.y + radius * M.sin angle }
  | ShapeType.square =>
      let width := shape.width.getD 40
      let height := shape.height.getD 40
      let perimeter := (width + height) * 2
      let distance := position * perimeter
      if distance < width then
        { x := shape.x + distance, y := shape.y }
      else if distance < width + height then
        { x := shape.x + width, y := shape.y + (distance - width) }
      else if distance < width * 2 + height then
        { x := shape.x + width - (distance - width - height), y := shape.y + height }
      else
        { x := shape.x, y := shape.y + height - (distance - width * 2 - height) }
  | ShapeType.triangle =>
      let width := shape.width.getD 40
      let height := shape.height.getD 40
      let bottomLeft : Point := { x := shape.x, y := shape.y + height }
      let topCenter : Point := { x := shape.x + width / 2, y := shape.y }
      let bottomRight : Point := { x := shape.x + width, y := shape.y + height }
      let leftEdge := M.sqrt ((width / 2) ^ 2 + height ^ 2)
      let rightEdge := M.sqrt ((width / 2) ^ 2 + height ^ 2)
      let bottomEdge := width
      let perimeter := leftEdge + rightEdge + bottomEdge
      let distance := position * perimeter
      if distance < leftEdge then
        let t := distance / leftEdge
        { x := bottomLeft.x + (topCenter.x - bottomLeft.x) * t,
          y := bottomLeft.y + (topCenter.y - bottomLeft.y) * t }
      else if distance < leftEdge + bottomEdge then
        let t := (distance - leftEdge) / bottomEdge
        { x := bottomLeft.x + (bottomRight.x - bottomLeft.x) * t,
          y := bottomLeft.y + (bottomRight.y - bottomLeft.y) * t }
      else
        let t := (distance - leftEdge - bottomEdge) / rightEdge
        { x := bottomRight.x + (topCenter.x - bottomRight.x) * t,
          y := bottomRight.y + (topCenter.y - bottomRight.y) * t }

/-- The Euclidean distance between two points as the code computes it:
`Math.sqrt(dx*dx + dy*dy)` through the supplied math library. -/
def euclidDist (M : JsMath) (p q : Point) : ℚ :=
  M.sqrt ((q.x - p.x) * (q.x - p.x) + (q.y - p.y) * (q.y - p.y))

/-- One step of the `findNearestAnchor` search loop: keep the incumbent
(best distance, best anchor) unless the candidate is strictly closer.  The
`Option` state is the `minDistance = Infinity` initialization: any finite
candidate beats `none`. -/
def nearestStep (M : JsMath) (shape : BaseShape) (point : Point)
    (acc : Option (ℚ × ConnectionAnchor)) (i : ℕ) : Option (ℚ × ConnectionAnchor) :=
  let position : ℚ := (i : ℚ) / 10
  let anchor : ConnectionAnchor := { position := position }
  let anchorPos := getAnchorPosition M shape anchor
  let distance := euclidDist M point anchorPos
  match acc with
  | none => some (distance, anchor)
  | some best =>
      if distance < best.1 then some (distance, anchor) else some best

/-- `findNearestAnchor` from `useCanvasState.ts`: brute-force search over the
10 canonical anchors `i/10`, `i = 0, …, 9`, keeping the first strict minimum
of the Euclidean distance (initial incumbent `minDistance = Infinity`,
`bestAnchor = { position: 0 }`). -/
def findNearestAnchor (M : JsMath) (shape : BaseShape) (point : Point) : ConnectionAnchor :=
  match (List.range 10).foldl (nearestStep M shape point) none with
  | some best => best.2
  | none => { position := 0 }

/-- `AnimationDot`: the dot-mode render payload. -/
structure AnimationDot where
  connectionId : String
  x : ℚ
  y : ℚ
  progress : ℚ
deriving DecidableEq, Repr

/-- `SnakeSegment`: the snake-mode render payload.  The source flattens the
sampled points into `[x1, y1, x2, y2, …]`; here they are kept as a list of
points (same information, pairs not interleaved). -/
structure SnakeSegment where
  points : List Point
  stroke : String
deriving DecidableEq, Repr

/-- `AnimationConfig` from `app/types/canvas.ts` (the fields read by the
animation loop).  `animationMode` is the string union `'dot' | 'snake'`. -/
structure AnimationConfig where
  enabled : Bool := true
  speed : ℚ := 1
  animationMode : String := "dot"
  dotSize : ℚ := 8
  dotColor : String := ""
  snakeLength : ℚ := 3/10
  rotationSpeed : ℚ := 0
deriving DecidableEq, Repr

/-- `CircuitSegment` from the path-animation composable: the tagged union of
connection segments (a connection plus traversal direction) and transition
segments (travel across a shape between two anchors), each carrying
cumulative `startDistance`/`endDistance`. -/
inductive CircuitSegment where
  | connection (connection : Connection) (reversed : Bool) (startDistance endDistance : ℚ)
  | transition (shape : BaseShape) (fromAnchor toAnchor : ℚ) (startDistance endDistance : ℚ)
deriving DecidableEq, Repr

/-- The `startDistance` field common to both variants. -/
def CircuitSegment.startDistance : CircuitSegment → ℚ
  | .connection _ _ s _ => s
  | .transition _ _ _ s _ => s

/-- The `endDistance` field common to both variants. -/
def CircuitSegment.endDistance : CircuitSegment → ℚ
  | .connection _ _ _ e => e
  | .transition _ _ _ _ e => e

/-- Whether a segment is a transition segment (`segment.type === 'transition'`). -/
def CircuitSegment.isTransition : CircuitSegment → Bool
  | .connection _ _ _ _ => false
  | .transition _ _ _ _ _ => true

/-- `getPointOnShapePerimeter`: delegate to `getAnchorPosition`. -/
def getPointOnShapePerimeter (M : JsMath) (shape : BaseShape) (anchorPosition : ℚ) : Point :=
  getAnchorPosition M shape { position := anchorPosition }

/-- `calculateTransitionLength`: straight-line pixel distance between the two
anchor positions on the shape. -/
def calculateTransitionLength (M : JsMath) (shape : BaseShape) (fromAnchor toAnchor : ℚ) : ℚ :=
  let fromPoint := getPointOnShapePerimeter M shape fromAnchor
  let toPoint := getPointOnShapePerimeter M shape toAnchor
  let dx := toPoint.x - fromPoint.x
  let dy := toPoint.y - fromPoint.y
  M.sqrt (dx * dx + dy * dy)

/-- `easeInOutCubic`: smooth ease-in-out cubic easing. -/
def easeInOutCubic (t : ℚ) : ℚ :=
  if t < 1/2 then 4 * t * t * t else 1 - (-2 * t + 2) ^ 3 / 2

/-- `getPointOnStraightLine`: linear interpolation at progress `t`. -/
def getPointOnStraightLine (fromPoint toPoint : Point) (t : ℚ) : Point :=
  { x := fromPoint.x + (toPoint.x - fromPoint.x) * t,
    y := fromPoint.y + (toPoint.y - fromPoint.y) * t }

/-- `getPointOnCurve`: quadratic Bézier evaluation at progress `t`. -/
def getPointOnCurve (fromPoint control toPoint : Point) (t : ℚ) : Point :=
  let mt := 1 - t
  { x := mt * mt * fromPoint.x + 2 * mt * t * control.x + t * t * toPoint.x,
    y := mt * mt * fromPoint.y + 2 * mt * t * control.y + t * t * toPoint.y }

/-- The resolved pixel endpoint of a connection end: the anchor position when
an anchor is present (JS truthiness check), the shape center otherwise. -/
def resolveEndpoint (M : JsMath) (shape : BaseShape) (anchor : Option ConnectionAnchor) : Point :=
  match anchor with
  | some a => getAnchorPosition M shape a
  | none => getShapeCenter shape

/-- One iteration of the Bézier arc-length sampling loop in
`calculatePathLength`: accumulate the distance from the previous sample and
move the previous-point cursor.  `i` ranges over `0, …, samples − 1`, the
sampled parameter being `(i + 1) / samples` as in the source's
`for (let i = 1; i <= samples; i++)`. -/
def bezierLengthStep (M : JsMath) (fromPoint control toPoint : Point) (samples : ℕ)
    (acc : ℚ × Point) (i : ℕ) : ℚ × Point :=
  let t : ℚ := ((i : ℚ) + 1) / (samples : ℚ)
  let point := getPointOnCurve fromPoint control toPoint t
  let dx := point.x - acc.2.x
  let dy := point.y - acc.2.y
  (acc.1 + M.sqrt (dx * dx + dy * dy), point)

/-- `calculatePathLength`: 0 when either endpoint shape is missing from the
lookup; exact `sqrt`-distance for a straight connection; a 20-sample polyline
approximation for a curved one. -/
def calculatePathLength (M : JsMath) (shapes : List BaseShape) (connection : Connection) : ℚ :=
  match shapes.find? (fun s => s.id == connection.fromShapeId),
        shapes.find? (fun s => s.id == connection.toShapeId) with
  | some fromShape, some toShape =>
      let fromPoint := resolveEndpoint M fromShape connection.fromAnchor
      let toPoint := resolveEndpoint M toShape connection.toAnchor
      match connection.curveOffset with
      | none =>
          let dx := toPoint.x - fromPoint.x
          let dy := toPoint.y - fromPoint.y
          M.sqrt (dx * dx + dy * dy)
      | some curveOffset =>
          let midX := (fromPoint.x + toPoint.x) / 2
          let midY := (fromPoint.y + toPoint.y) / 2
          let control : Point := { x := midX + curveOffset.x, y := midY + curveOffset.y }
          let samples : ℕ := 20
          ((List.range samples).foldl
            (bezierLengthStep M fromPoint control toPoint samples) (0, fromPoint)).1
  | _, _ => 0

/-- `getPointOnPath`: `none` when either endpoint shape is missing; otherwise
evaluate the straight line or quadratic curve at `t` (or `1 − t` when
traversed in reverse).  The control point of a curved connection is computed
from the original endpoints and does not depend on the `reversed` flag. -/
def getPointOnPath (M : JsMath) (shapes : List BaseShape) (connection : Connection)
    (t : ℚ) (reversed : Bool) : Option Point :=
  match shapes.find? (fun s => s.id == connection.fromShapeId),
        shapes.find? (fun s => s.id == connection.toShapeId) with
  | some fromShape, some toShape =>
      let fromPoint := resolveEndpoint M fromShape connection.fromAnchor
      let toPoint := resolveEndpoint M toShape connection.toAnchor
      let actualT := if reversed then 1 - t else t
      match connection.curveOffset with
      | none => some (getPointOnStraightLine fromPoint toPoint actualT)
      | some curveOffset =>
          let midX := (fromPoint.x + toPoint.x) / 2
          let midY := (fromPoint.y + toPoint.y) / 2
          let control : Point := { x := midX + curveOffset.x, y := midY + curveOffset.y }
          some (getPointOnCurve fromPoint control toPoint actualT)
  | _, _ => none

/-- `getExitAnchor`: the shape id and anchor (if any) at which a traversed
connection segment ends. -/
def getExitAnchor (connection : Connection) (reversed : Bool) : String × Option ℚ :=
  if reversed then
    (connection.fromShapeId, connection.fromAnchor.map (fun a => a.position))
  else
    (connection.toShapeId, connection.toAnchor.map (fun a => a.position))

/-- `getEntryAnchor`: the shape id and anchor (if any) at which a traversed
connection segment starts. -/
def getEntryAnchor (connection : Connection) (reversed : Bool) : String × Option ℚ :=
  if reversed then
    (connection.toShapeId, connection.toAnchor.map (fun a => a.position))
  else
    (connection.fromShapeId, connection.fromAnchor.map (fun a => a.position))

/-- The JS `Set.add` on connection ids: insert if absent. -/
def insertId (used : List String) (id : String) : List String :=
  if used.contains id then used else id :: used

/-- Sum of the individual lengths (`endDistance − startDistance`) of a
segment list. -/
def segsLength (segs : List CircuitSegment) : ℚ :=
  (segs.map (fun s => s.endDistance - s.startDistance)).sum

/-- The transition segment (if any) inserted before appending the next
connection: present exactly when the current exit anchor and the next
connection's entry anchor both exist, differ (exact comparison), and the
current shape resolves in the lookup. -/
def transitionSegs (M : JsMath) (shapes : List BaseShape) (currentShapeId : String)
    (currentExitAnchor entryAnchor : Option ℚ) (cumulativeDistance : ℚ) : List CircuitSegment :=
  match currentExitAnchor, entryAnchor with
  | some exitA, some entryA =>
      if exitA = entryA then []
      else
        match shapes.find? (fun s => s.id == currentShapeId) with
        | some shape =>
            [CircuitSegment.transition shape exitA entryA cumulativeDistance
              (cumulativeDistance + calculateTransitionLength M shape exitA entryA)]
        | none => []
  | _, _ => []

/-- The greedy walk of `buildCircuit` (its `while` loop).  Each iteration
either appends the first unused connection touching `currentShapeId`
(preceded by a transition segment when the anchors differ), or starts a fresh
sub-path at the first unused connection, or stops.  Fuel bounds the number of
iterations; the caller passes `connectionsList.length`, which the loop can
never exhaust because every iteration marks one fresh connection used. -/
def buildLoop (M : JsMath) (shapes : List BaseShape) (connectionsList : List Connection) :
    ℕ → List String → String → Option ℚ → ℚ → List CircuitSegment
  | 0, _, _, _, _ => []
  | fuel + 1, usedConnections, currentShapeId, currentExitAnchor, cumulativeDistance =>
    if usedConnections.length < connectionsList.length then
      match connectionsList.find? (fun c =>
          !usedConnections.contains c.id &&
          (c.fromShapeId == currentShapeId || c.toShapeId == currentShapeId)) with
      | some nextConnection =>
          let nextReversed := !(nextConnection.fromShapeId == currentShapeId)
          let entryAnchor := getEntryAnchor nextConnection nextReversed
          let ts := transitionSegs M shapes currentShapeId currentExitAnchor
              entryAnchor.2 cumulativeDistance
          let cum1 := cumulativeDistance + segsLength ts
          let length := calculatePathLength M shapes nextConnection
          let exitAnchor := getExitAnchor nextConnection nextReversed
          ts ++ (CircuitSegment.connection nextConnection nextReversed cum1 (cum1 + length)
            :: buildLoop M shapes connectionsList fuel
                (insertId usedConnections nextConnection.id)
                exitAnchor.1 exitAnchor.2 (cum1 + length))
      | none =>
          match connectionsList.find? (fun c => !usedConnections.contains c.id) with
          | some connection =>
              let length := calculatePathLength M shapes connection
              let exitAnchor := getExitAnchor connection false
              CircuitSegment.connection connection false cumulativeDistance
                  (cumulativeDistance + length)
                :: buildLoop M shapes connectionsList fuel
                    (insertId usedConnections connection.id)
                    exitAnchor.1 exitAnchor.2 (cumulativeDistance + length)
          | none => []
    else []

/-- `buildCircuit`: empty input → empty output; a single connection → one
unreversed segment spanning `[0, length)`; otherwise seed the walk with the
first connection and run the greedy loop. -/
def buildCircuit (M : JsMath) (shapes : List BaseShape)
    (connectionsList : List Connection) : List CircuitSegment :=
  match connectionsList with
  | [] => []
  | [connection] =>
      let length := calculatePathLength M shapes connection
      [CircuitSegment.connection connection false 0 length]
  | firstConnection :: _ :: _ =>
      let firstLength := calculatePathLength M shapes firstConnection
      let firstExit := getExitAnchor firstConnection false
      CircuitSegment.connection firstConnection false 0 firstLength
        :: buildLoop M shapes connectionsList connectionsList.length
            (insertId [] firstConnection.id) firstExit.1 firstExit.2 firstLength

/-- `circuit[circuit.length - 1]?.endDistance || 0`: the total circuit length. -/
def circuitTotalLength (circuit : List CircuitSegment) : ℚ :=
  match circuit.getLast? with
  | some s => s.endDistance
  | none => 0

/-- `((distance % totalLength) + totalLength) % totalLength`: the wraparound
normalization applied by `getPointOnCircuit` and `generateSnakeSegment`. -/
def normalizeDistance (distance totalLength : ℚ) : ℚ :=
  jsMod (jsMod distance totalLength + totalLength) totalLength

/-- `getPointOnCircuit`: resolve a circuit distance (normalized modulo the
total length) to a point and the id of the connection owning it.  Falls back
to the last segment when no segment's `[startDistance, endDistance)` contains
the distance; transition segments are evaluated as an eased quadratic curve
through the shape center, attributed to the previous connection segment. -/
def getPointOnCircuit (M : JsMath) (shapes : List BaseShape)
    (circuit : List CircuitSegment) (distance : ℚ) : Option (Point × String) :=
  let totalLength := circuitTotalLength circuit
  if totalLength = 0 then none
  else
    let normalizedDistance := normalizeDistance distance totalLength
    match (circuit.find? (fun s =>
        decide (s.startDistance ≤ normalizedDistance) &&
        decide (normalizedDistance < s.endDistance))).orElse (fun _ => circuit.getLast?) with
    | none => none
    | some segment =>
        let segmentLength := segment.endDistance - segment.startDistance
        let segmentProgress :=
          if 0 < segmentLength then (normalizedDistance - segment.startDistance) / segmentLength
          else 0
        let clampedProgress := max 0 (min 1 segmentProgress)
        match segment with
        | CircuitSegment.connection conn reversed _ _ =>
            match getPointOnPath M shapes conn clampedProgress reversed with
            | some point => some (point, conn.id)
            | none => none
        | CircuitSegment.transition shape fromAnchor toAnchor _ _ =>
            let segmentIndex := circuit.indexOf segment
            let prevSegment := if 0 < segmentIndex then circuit.get? (segmentIndex - 1) else none
            let connectionId := match prevSegment with
              | some (CircuitSegment.connection c _ _ _) => c.id
              | _ => "transition"
            let easedProgress := easeInOutCubic clampedProgress
            let fromPoint := getPointOnShapePerimeter M shape fromAnchor
            let toPoint := getPointOnShapePerimeter M shape toAnchor
            let center := getShapeCenter shape
            some (getPointOnCurve fromPoint center toPoint easedProgress, connectionId)

/-- The distances sampled by `generateSnakeSegment`: ~30 samples along
`[tail, head]`, split into two sub-ranges (tail → total length, then
0 → head) when the normalized head lies before the normalized tail. -/
def snakeSampleDistances (normalizedTail normalizedHead totalLength : ℚ) : List ℚ :=
  let samples : ℕ := 30
  if normalizedHead < normalizedTail then
    ((List.range (samples / 2 + 1)).map fun i =>
        normalizedTail + (totalLength - normalizedTail) * ((i : ℚ) / ((samples / 2 : ℕ) : ℚ)))
      ++ ((List.range (samples / 2 + 1)).map fun i =>
        normalizedHead * ((i : ℚ) / ((samples / 2 : ℕ) : ℚ)))
  else
    (List.range (samples + 1)).map fun i =>
      normalizedTail + (normalizedHead - normalizedTail) * ((i : ℚ) / (samples : ℚ))

/-- `generateSnakeSegment`: sample the snake's sub-path, dropping unresolvable
points; fewer than two resolved points yield no segment; the stroke color
comes from the connection owning the last resolved point, with the fallback
color for a missing or falsy stroke. -/
def generateSnakeSegment (M : JsMath) (shapes : List BaseShape)
    (circuit : List CircuitSegment) (tailDistance headDistance : ℚ)
    (connectionsList : List Connection) : Option SnakeSegment :=
  let totalLength := circuitTotalLength circuit
  if totalLength = 0 then none
  else
    let normalizedTail := normalizeDistance tailDistance totalLength
    let normalizedHead := normalizeDistance headDistance totalLength
    let resolved := (snakeSampleDistances normalizedTail normalizedHead totalLength).filterMap
        (fun d => getPointOnCircuit M shapes circuit d)
    if resolved.length < 2 then none
    else
      let lastConnectionId := resolved.getLast?.map (fun pr => pr.2)
      let stroke :=
        match lastConnectionId.bind
            (fun cid => connectionsList.find? (fun c => c.id == cid)) with
        | some connection => if connection.stroke = "" then "#d946ef" else connection.stroke
        | none => "#d946ef"
      some { points := resolved.map (fun pr => pr.1), stroke := stroke }

/-- `config().speed || 1` in the animation tick. -/
def effectiveSpeed (cfg : AnimationConfig) : ℚ :=
  if cfg.speed = 0 then 1 else cfg.speed

/-- The duration derived each tick:
`(baseDuration * (totalLength / avgPathLength)) / speedMultiplier` with
`baseDuration = 2000` and `avgPathLength = 200`. -/
def animateDuration (cfg : AnimationConfig) (totalLength : ℚ) : ℚ :=
  (2000 * (totalLength / 200)) / effectiveSpeed cfg

/-- The snake-mode `(tailDistance, headDistance)` pair derived in the tick:
`tail = distance − snakeLength·totalLength`, `head = distance`, where the
snake length fraction defaults to `0.3` when falsy. -/
def animateSnakeBounds (cfg : AnimationConfig) (totalLength distanceAlongCircuit : ℚ) : ℚ × ℚ :=
  let snakeLength := if cfg.snakeLength = 0 then 3/10 else cfg.snakeLength
  let snakeDistance := snakeLength * totalLength
  (distanceAlongCircuit - snakeDistance, distanceAlongCircuit)

/-- The dot-mode body of the tick: locate the segment containing the distance
(last segment as fallback), clamp the local progress, and evaluate the
segment (eased center-curve for transitions). -/
def animateDotAt (M : JsMath) (shapes : List BaseShape)
    (circuit : List CircuitSegment) (distanceAlongCircuit : ℚ) : List AnimationDot :=
  match (circuit.find? (fun s =>
      decide (s.startDistance ≤ distanceAlongCircuit) &&
      decide (distanceAlongCircuit < s.endDistance))).orElse (fun _ => circuit.getLast?) with
  | none => []
  | some segment =>
      let segmentLength := segment.endDistance - segment.startDistance
      let segmentProgress :=
        if 0 < segmentLength then (distanceAlongCircuit - segment.startDistance) / segmentLength
        else 0
      let clampedProgress := max 0 (min 1 segmentProgress)
      match segment with
      | CircuitSegment.connection conn reversed _ _ =>
          match getPointOnPath M shapes conn clampedProgress reversed with
          | some point =>
              [{ connectionId := conn.id, x := point.x, y := point.y,
                 progress := clampedProgress }]
          | none => []
      | CircuitSegment.transition shape fromAnchor toAnchor _ _ =>
          let segmentIndex := circuit.indexOf segment
          let prevSegment := if 0 < segmentIndex then circuit.get? (segmentIndex - 1) else none
          let connectionId := match prevSegment with
            | some (CircuitSegment.connection c _ _ _) => c.id
            | _ => "transition"
          let easedProgress := easeInOutCubic clampedProgress
          let fromPoint := getPointOnShapePerimeter M shape fromAnchor
          let toPoint := getPointOnShapePerimeter M shape toAnchor
          let center := getShapeCenter shape
          let point := getPointOnCurve fromPoint center toPoint easedProgress
          [{ connectionId := connectionId, x := point.x, y := point.y,
             progress := clampedProgress }]

/-- The pure per-tick computation of `animate` at a given elapsed time:
empty payloads for an empty connection list, empty circuit or zero total
length; otherwise `progress = (elapsed % duration) / duration`,
`distance = progress · totalLength`, then the snake or dot body. -/
def animateFrame (M : JsMath) (connectionsList : List Connection)
    (shapes : List BaseShape) (cfg : AnimationConfig) (elapsed : ℚ) :
    List AnimationDot × Option SnakeSegment :=
  if connectionsList.length = 0 then ([], none)
  else
    let circuit := buildCircuit M shapes connectionsList
    if circuit.length = 0 then ([], none)
    else
      let totalLength := circuitTotalLength circuit
      if totalLength = 0 then ([], none)
      else
        let duration := animateDuration cfg totalLength
        let progress := jsMod elapsed duration / duration
        let distanceAlongCircuit := progress * totalLength
        let animationMode := if cfg.animationMode = "" then "dot" else cfg.animationMode
        if animationMode = "snake" then
          let bounds := animateSnakeBounds cfg totalLength distanceAlongCircuit
          ([], generateSnakeSegment M shapes circuit bounds.1 bounds.2 connectionsList)
        else
          (animateDotAt M shapes circuit distanceAlongCircuit, none)

/-! ## Concrete model instances used by witnesses and counterexamples -/

/-- A concrete math library whose `sqrt` is the identity.  The identity is
strictly monotone, so every comparison of `sqrt`-distances made by the code
orders exactly as the comparison of true squared Euclidean distances. -/
def Msq : JsMath := { sqrt := fun x => x, cos := fun _ => 0, sin := fun _ => 0, pi := 0 }

/-- A strictly monotone rational square-root approximation that is close to
the true square root at `2000` (`mysqrt 2000 = 400/9 = 44.4…`, versus
`√2000 = 44.7…`): piecewise linear, increasing, continuous at the seam. -/
def mysqrt (x : ℚ) : ℚ := if x < 2000 then x / 45 else x - 2000 + 400/9

/-- A math library using `mysqrt`: faithful enough to reproduce the true
floating-point branch behavior of the default triangle's perimeter walk. -/
def Mtri : JsMath := { sqrt := mysqrt, cos := fun _ => 0, sin := fun _ => 0, pi := 0 }

/-- The animation config used in the snake scenario: snake length fraction
`0.2`. -/
def snakeCfg : AnimationConfig := { snakeLength := 1/5 }

/-- The all-defaults animation config (dot mode, speed 1). -/
def defaultCfg : AnimationConfig := {}

/-- The `i`-th sample point of the Bézier length loop: the loop's
`prevPoint` starts at the `from` endpoint, then moves to
`getPointOnCurve(from, control, to, i / samples)` for `i = 1, …, samples`. -/
def curveSample (M : JsMath) (fromPoint control toPoint : Point) (samples : ℕ) : ℕ → Point
  | 0 => fromPoint
  | n + 1 => getPointOnCurve fromPoint control toPoint (((n : ℚ) + 1) / (samples : ℚ))

/-- A "square"-kind shape resized to 40×2 (the shape record allows arbitrary
`width`/`height`).  Its long thin proportions make chord distance and
perimeter distance disagree near the short edges. -/
def rectShape : BaseShape :=
  { id := "R", x := 0, y := 0, type := ShapeType.square,
    width := some 40, height := some 2 }

/-- Modelled from the spec's words for the round-trip property: the canonical
snap value in `{0, 0.1, …, 0.9}` nearest to `a` in anchor value, ties broken
by the first minimum in ascending order (the running best starts at the first
candidate `0` and is replaced only on a strict improvement).  This is the
spec-side reference value the round trip is claimed to return;
`findNearestAnchor` is the code-side search. -/
def specNearestSnap (a : ℚ) : ℚ :=
  (List.range 10).foldl (fun best i =>
    if |a - ((i : ℚ) / 10)| < |a - best| then (i : ℚ) / 10 else best) 0

/-- Contiguity from a starting distance: every segment starts exactly where
its predecessor ended, the first one at `d`. -/
def IsChainFrom : ℚ → List CircuitSegment → Prop
  | _, [] => True
  | d, s :: rest => s.startDistance = d ∧ IsChainFrom s.endDistance rest

/-- The cumulative distance after a segment list: the last `endDistance`, or
`d` for the empty list. -/
def chainEnd (d : ℚ) : List CircuitSegment → ℚ
  | [] => d
  | s :: rest => chainEnd s.endDistance rest

/-- Whether a segment is a connection segment carrying the connection with
id `c.id`. -/
def isConnSegFor (c : Connection) : CircuitSegment → Bool
  | CircuitSegment.connection c2 _ _ _ => c2.id == c.id
  | CircuitSegment.transition _ _ _ _ _ => false

/-- The connection segments of a circuit belonging to connection `c`. -/
def connSegsFor (segs : List CircuitSegment) (c : Connection) : List CircuitSegment :=
  segs.filter (isConnSegFor c)

/-- The one-sided limit statement used for the wraparound claims: `f a`
approaches `p` (coordinatewise, ε–δ over ℚ) as `a → 1` from below. -/
def TendstoAtOneLeft (f : ℚ → Point) (p : Point) : Prop :=
  ∀ ε : ℚ, 0 < ε → ∃ δ : ℚ, 0 < δ ∧ ∀ a : ℚ, 1 - δ < a → a < 1 →
    |(f a).x - p.x| < ε ∧ |(f a).y - p.y| < ε

/-- Default 40×40 square at the origin. -/
def sqShape : BaseShape := { id := "S", x := 0, y := 0, type := ShapeType.square }

/-- Default 40×40 triangle at the origin (as placed by `addShape`, which
leaves `width`/`height` unset for triangles; the geometry defaults them
to 40). -/
def triShape : BaseShape := { id := "T", x := 0, y := 0, type := ShapeType.triangle }

/-- Default radius-20 circle at the origin. -/
def circShape : BaseShape := { id := "O", x := 0, y := 0, type := ShapeType.circle }

/-- Square shape `A` for the three-shape chain scenario. -/
def shapeA : BaseShape := { id := "A", x := 0, y := 0, type := ShapeType.square }

/-- Square shape `B` for the three-shape chain scenario. -/
def shapeB : BaseShape := { id := "B", x := 100, y := 0, type := ShapeType.square }

/-- Square shape `C` for the three-shape chain scenario. -/
def shapeC : BaseShape := { id := "C", x := 200, y := 0, type := ShapeType.square }

/-- Connection `A—B`, exiting `B` at anchor `0.2`. -/
def connAB : Connection :=
  { id := "ab", fromShapeId := "A", toShapeId := "B",
    fromAnchor := some { position := 1/10 }, toAnchor := some { position := 1/5 } }

/-- Connection `B—C`, entering `B` at anchor `0.6`. -/
def connBC : Connection :=
  { id := "bc", fromShapeId := "B", toShapeId := "C",
    fromAnchor := some { position := 3/5 }, toAnchor := some { position := 0 } }

theorem mysqrt_strictMono : StrictMono mysqrt := by
  intro a b hab
  unfold mysqrt
  split <;> split <;> rename_i h1 h2
  · linarith
  · have : a / 45 < 2000 / 45 := by linarith
    linarith
  · exact absurd (lt_trans hab h2) h1
  · linarith









/-! ## C3: anchors outside `[0, 1)` -/

/-- C3 (counterexample).  The spec claims every shape kind wraps the anchor
modulo 1.  The square (and triangle) branches of `getAnchorPosition` never
reduce `position`: they extrapolate the final edge.  At anchor `5/4` the
default square yields `(0, −40)` — a point off the shape — while the wrapped
anchor `1/4` yields the corner `(40, 0)`.  The square branch reads nothing
from the math library, so this one instance refutes the claim for every
choice of `sqrt`/`cos`/`sin`/`pi`. -/
theorem square_anchor_not_wrapped :
    getAnchorPosition Msq sqShape { position := 5/4 }
      ≠ getAnchorPosition Msq sqShape { position := Int.fract (5/4 : ℚ) } := by
  have hf : Int.fract (5/4 : ℚ) = 1/4 := by norm_num [Int.fract]
  rw [hf]
  norm_num [getAnchorPosition, Msq, sqShape, Point.mk.injEq]

/-- C3 (amended).  For circle shapes the claim holds: the angle is affine in
the anchor, so a 2π-periodic `cos`/`sin` make `getAnchorPosition` invariant
under shifting the anchor by any integer, i.e. the anchor is effectively
taken modulo 1 (and no anchor value is ever rejected — the function is
total).  Square and triangle extrapolate instead of wrapping. -/
theorem circle_anchor_wraps (M : JsMath)
    (hcos : ∀ x, M.cos (x + M.pi * 2) = M.cos x)
    (hsin : ∀ x, M.sin (x + M.pi * 2) = M.sin x)
    (shape : BaseShape) (hshape : shape.type = ShapeType.circle) (a : ℚ) :
    getAnchorPosition M shape { position := a }
      = getAnchorPosition M shape { position := Int.fract a } := by
  have hc : Function.Periodic M.cos (M.pi * 2) := hcos
  have hs : Function.Periodic M.sin (M.pi * 2) := hsin
  have harg : Int.fract a * M.pi * 2 - M.pi / 2
      = (a * M.pi * 2 - M.pi / 2) - (⌊a⌋ : ℚ) * (M.pi * 2) := by
    rw [Int.fract]
    ring
  unfold getAnchorPosition
  rw [hshape]
  simp only [harg, hc.sub_int_mul_eq, hs.sub_int_mul_eq]

/-- Witness for `circle_anchor_wraps` at the concrete library `Msq` (constant
`cos`/`sin` are 2π-periodic), the default circle, and anchor `7/2`. -/
theorem circle_anchor_wraps_w :
    (∀ x, Msq.cos (x + Msq.pi * 2) = Msq.cos x) ∧
    (∀ x, Msq.sin (x + Msq.pi * 2) = Msq.sin x) ∧
    circShape.type = ShapeType.circle ∧
    getAnchorPosition Msq circShape { position := 7/2 }
      = getAnchorPosition Msq circShape { position := Int.fract (7/2 : ℚ) } :=
  ⟨fun _ => rfl, fun _ => rfl, rfl,
    circle_anchor_wraps Msq (fun _ => rfl) (fun _ => rfl) circShape rfl (7/2)⟩

/-! ## C6: reversed traversal symmetry -/

/-- C6.  When both endpoint shapes resolve, evaluating a connection with
`reversed = true` at parameter `t ∈ [0, 1]` gives the same point as
`reversed = false` at `1 − t`; for a curved connection both evaluations use
the one control point `midpoint + curveOffset` built from the unreversed
endpoints, so only the effective parameter changes. -/
theorem pointOnPath_reversed_symm (M : JsMath) (shapes : List BaseShape)
    (connection : Connection) (t : ℚ) (fromShape toShape : BaseShape)
    (hfrom : shapes.find? (fun s => s.id == connection.fromShapeId) = some fromShape)
    (hto : shapes.find? (fun s => s.id == connection.toShapeId) = some toShape)
    (ht0 : 0 ≤ t) (ht1 : t ≤ 1) :
    getPointOnPath M shapes connection t true
      = getPointOnPath M shapes connection (1 - t) false ∧
    (∀ curveOffset, connection.curveOffset = some curveOffset →
      ∀ reversed : Bool,
        getPointOnPath M shapes connection t reversed
          = some (getPointOnCurve
              (resolveEndpoint M fromShape connection.fromAnchor)
              { x := (resolveEndpoint M fromShape connection.fromAnchor).x / 2
                    + (resolveEndpoint M toShape connection.toAnchor).x / 2
                    + curveOffset.x,
                y := (resolveEndpoint M fromShape connection.fromAnchor).y / 2
                    + (resolveEndpoint M toShape connection.toAnchor).y / 2
                    + curveOffset.y }
              (resolveEndpoint M toShape connection.toAnchor)
              (if reversed then 1 - t else t))) := by
  constructor
  · unfold getPointOnPath
    rw [hfrom, hto]
    cases connection.curveOffset <;> simp
  · intro curveOffset hoff reversed
    unfold getPointOnPath
    rw [hfrom, hto, hoff]
    cases reversed <;> simp <;> congr 1 <;> ring_nf

/-- Witness for `pointOnPath_reversed_symm`: the straight connection `A—B`
among the concrete squares, at `t = 1/3`. -/
theorem pointOnPath_reversed_symm_w :
    ([shapeA, shapeB].find? (fun s => s.id == connAB.fromShapeId) = some shapeA) ∧
    ([shapeA, shapeB].find? (fun s => s.id == connAB.toShapeId) = some shapeB) ∧
    (0 : ℚ) ≤ 1/3 ∧ (1/3 : ℚ) ≤ 1 ∧
    getPointOnPath Msq [shapeA, shapeB] connAB (1/3) true
      = getPointOnPath Msq [shapeA, shapeB] connAB (1 - 1/3) false :=
  ⟨rfl, rfl, by norm_num, by norm_num,
    (pointOnPath_reversed_symm Msq [shapeA, shapeB] connAB (1/3) shapeA shapeB
      rfl rfl (by norm_num) (by norm_num)).1⟩

/-! ## C2: transition segment insertion -/

/-- C2.  When the greedy walk continues from the current shape and the
current exit anchor and the next connection's entry anchor at that shape both
exist and differ (exact comparison), exactly one transition segment is
inserted on that shape, from the exit anchor to the entry anchor, with length
the straight-line pixel distance between the two anchor points.  In
particular, for the chain where `A—B` exits `B` at anchor `0.2` and `B—C`
enters `B` at anchor `0.6`, `buildCircuit` yields connection, transition,
connection, the transition being on `B` from `0.2` to `0.6` with positive
length (positive because the two anchor points differ, assuming only that the
library `sqrt` is positive on positive inputs). -/
theorem buildCircuit_transition_insertion (M : JsMath)
    (hpos : ∀ x : ℚ, 0 < x → 0 < M.sqrt x) :
    (∀ (shapes : List BaseShape) (currentShapeId : String) (exitA entryA cum : ℚ)
        (shape : BaseShape), exitA ≠ entryA →
        shapes.find? (fun s => s.id == currentShapeId) = some shape →
        transitionSegs M shapes currentShapeId (some exitA) (some entryA) cum
          = [CircuitSegment.transition shape exitA entryA cum
              (cum + calculateTransitionLength M shape exitA entryA)]) ∧
    buildCircuit M [shapeA, shapeB, shapeC] [connAB, connBC]
      = [CircuitSegment.connection connAB false 0
            (calculatePathLength M [shapeA, shapeB, shapeC] connAB),
         CircuitSegment.transition shapeB (1/5) (3/5)
            (calculatePathLength M [shapeA, shapeB, shapeC] connAB)
            (calculatePathLength M [shapeA, shapeB, shapeC] connAB
              + calculateTransitionLength M shapeB (1/5) (3/5)),
         CircuitSegment.connection connBC false
            (calculatePathLength M [shapeA, shapeB, shapeC] connAB
              + calculateTransitionLength M shapeB (1/5) (3/5))
            (calculatePathLength M [shapeA, shapeB, shapeC] connAB
              + calculateTransitionLength M shapeB (1/5) (3/5)
              + calculatePathLength M [shapeA, shapeB, shapeC] connBC)] ∧
    ((buildCircuit M [shapeA, shapeB, shapeC] [connAB, connBC]).filter
        (fun s => s.isTransition)).length = 1 ∧
    calculateTransitionLength M shapeB (1/5) (3/5)
      = euclidDist M (getPointOnShapePerimeter M shapeB (1/5))
          (getPointOnShapePerimeter M shapeB (3/5)) ∧
    0 < calculateTransitionLength M shapeB (1/5) (3/5) := by
  have hgen : ∀ (shapes : List BaseShape) (currentShapeId : String)
      (exitA entryA cum : ℚ) (shape : BaseShape), exitA ≠ entryA →
      shapes.find? (fun s => s.id == currentShapeId) = some shape →
      transitionSegs M shapes currentShapeId (some exitA) (some entryA) cum
        = [CircuitSegment.transition shape exitA entryA cum
            (cum + calculateTransitionLength M shape exitA entryA)] := by
    intro shapes currentShapeId exitA entryA cum shape hne hfind
    simp [transitionSegs, hfind, hne]
  have hlist : buildCircuit M [shapeA, shapeB, shapeC] [connAB, connBC]
      = [CircuitSegment.connection connAB false 0
            (calculatePathLength M [shapeA, shapeB, shapeC] connAB),
         CircuitSegment.transition shapeB (1/5) (3/5)
            (calculatePathLength M [shapeA, shapeB, shapeC] connAB)
            (calculatePathLength M [shapeA, shapeB, shapeC] connAB
              + calculateTransitionLength M shapeB (1/5) (3/5)),
         CircuitSegment.connection connBC false
            (calculatePathLength M [shapeA, shapeB, shapeC] connAB
              + calculateTransitionLength M shapeB (1/5) (3/5))
            (calculatePathLength M [shapeA, shapeB, shapeC] connAB
              + calculateTransitionLength M shapeB (1/5) (3/5)
              + calculatePathLength M [shapeA, shapeB, shapeC] connBC)] := by
    simp [buildCircuit, buildLoop, insertId, transitionSegs, segsLength,
      getEntryAnchor, getExitAnchor, connAB, connBC, shapeA, shapeB, shapeC,
      CircuitSegment.endDistance, CircuitSegment.startDistance]
    norm_num
  have hchord : calculateTransitionLength M shapeB (1/5) (3/5) = M.sqrt 1664 := by
    norm_num [calculateTransitionLength, getPointOnShapePerimeter,
      getAnchorPosition, shapeB]
  refine ⟨hgen, hlist, ?_, rfl, ?_⟩
  · rw [hlist]
    simp [CircuitSegment.isTransition]
  · rw [hchord]
    exact hpos 1664 (by norm_num)

/-- Witness for `buildCircuit_transition_insertion` at the concrete library
`Msq` (identity `sqrt` is positive on positives): the transition inserted on
`B` has positive length. -/
theorem buildCircuit_transition_insertion_w :
    (∀ x : ℚ, 0 < x → 0 < Msq.sqrt x) ∧
    0 < calculateTransitionLength Msq shapeB (1/5) (3/5) :=
  ⟨fun _ hx => hx, (buildCircuit_transition_insertion Msq (fun _ hx => hx)).2.2.2.2⟩

/-! ## jsMod evaluation lemmas -/

theorem jsMod_of_nonneg_of_lt (a b : ℚ) (h0 : 0 ≤ a) (hb : 0 < b) (h : a < b) :
    jsMod a b = a := by
  unfold jsMod jsTrunc
  have h1 : 0 ≤ a / b := div_nonneg h0 hb.le
  have h2 : ⌊a / b⌋ = 0 := by
    rw [Int.floor_eq_zero_iff]
    exact ⟨h1, (div_lt_one hb).mpr h⟩
  rw [if_pos h1, h2]
  simp

theorem jsMod_of_neg_of_gt (a b : ℚ) (ha : a < 0) (hb : 0 < b) (h : -b < a) :
    jsMod a b = a := by
  unfold jsMod jsTrunc
  have h1 : ¬ (0 ≤ a / b) := by
    rw [not_le]
    exact div_neg_of_neg_of_pos ha hb
  have h2 : ⌈a / b⌉ = 0 := by
    rw [Int.ceil_eq_zero_iff]
    refine ⟨?_, (div_nonpos_iff.mpr (Or.inr ⟨ha.le, hb.le⟩))⟩
    show (-1 : ℚ) < a / b
    rw [neg_lt, ← neg_div]
    exact (div_lt_one hb).mpr (by linarith)
  rw [if_neg h1, h2]
  simp

theorem jsMod_add_self_left (x b : ℚ) (h0 : 0 ≤ x) (hb : 0 < b) (h : x < b) :
    jsMod (x + b) b = x := by
  unfold jsMod jsTrunc
  have hxb : (x + b) / b = x / b + 1 := by
    rw [add_div, div_self hb.ne']
  have h1 : 0 ≤ (x + b) / b := div_nonneg (by linarith) hb.le
  have h2 : ⌊(x + b) / b⌋ = 1 := by
    rw [hxb, Int.floor_add_one, Int.floor_eq_zero_iff.mpr
      ⟨div_nonneg h0 hb.le, (div_lt_one hb).mpr h⟩]
    norm_num
  rw [if_pos h1, h2]
  push_cast
  ring

/-! ## C9: snake-mode tail/head normalization and wraparound split -/


/-- C9.  In snake mode the tick derives `tail = distance − snakeLength·L`,
`head = distance`, and `generateSnakeSegment` normalizes both modulo the
total length, splitting the ~30-point sampling into two sub-ranges
(tail → L, then 0 → head) exactly when the normalized head precedes the
normalized tail.  For a circuit of length 300 with snake fraction `0.2`
(60 px): at distance 290 the bounds are `(230, 290)`, both already
normalized, and the sampling is the single range `230 → 290` (31 samples);
at distance 10 the tail is `−50`, normalized to `250`, head `10 < 250`, and
the sampling is the two-subrange wraparound path `250 → 300` followed by
`0 → 10` (16 + 16 samples). -/
theorem snake_wraparound_sampling :
    animateSnakeBounds snakeCfg 300 290 = (230, 290) ∧
    normalizeDistance 230 300 = 230 ∧
    normalizeDistance 290 300 = 290 ∧
    ¬ (normalizeDistance 290 300 < normalizeDistance 230 300) ∧
    snakeSampleDistances 230 290 300
      = ((List.range 31).map fun i => 230 + (290 - 230) * ((i : ℚ) / 30)) ∧
    animateSnakeBounds snakeCfg 300 10 = (-50, 10) ∧
    normalizeDistance (-50) 300 = 250 ∧
    normalizeDistance 10 300 = 10 ∧
    normalizeDistance 10 300 < normalizeDistance (-50) 300 ∧
    snakeSampleDistances 250 10 300
      = ((List.range 16).map fun i => 250 + (300 - 250) * ((i : ℚ) / 15))
        ++ ((List.range 16).map fun i => 10 * ((i : ℚ) / 15)) := by
  have h230 : normalizeDistance 230 300 = 230 := by
    unfold normalizeDistance
    rw [jsMod_of_nonneg_of_lt 230 300 (by norm_num) (by norm_num) (by norm_num),
      jsMod_add_self_left 230 300 (by norm_num) (by norm_num) (by norm_num)]
  have h290 : normalizeDistance 290 300 = 290 := by
    unfold normalizeDistance
    rw [jsMod_of_nonneg_of_lt 290 300 (by norm_num) (by norm_num) (by norm_num),
      jsMod_add_self_left 290 300 (by norm_num) (by norm_num) (by norm_num)]
  have h10 : normalizeDistance 10 300 = 10 := by
    unfold normalizeDistance
    rw [jsMod_of_nonneg_of_lt 10 300 (by norm_num) (by norm_num) (by norm_num),
      jsMod_add_self_left 10 300 (by norm_num) (by norm_num) (by norm_num)]
  have hneg : normalizeDistance (-50) 300 = 250 := by
    unfold normalizeDistance
    rw [jsMod_of_neg_of_gt (-50) 300 (by norm_num) (by norm_num) (by norm_num)]
    norm_num
    rw [jsMod_of_nonneg_of_lt 250 300 (by norm_num) (by norm_num) (by norm_num)]
  refine ⟨by norm_num [animateSnakeBounds, snakeCfg], h230, h290,
    by rw [h230, h290]; norm_num, by norm_num [snakeSampleDistances],
    by norm_num [animateSnakeBounds, snakeCfg], hneg, h10,
    by rw [h10, hneg]; norm_num, by norm_num [snakeSampleDistances]⟩

/-! ## C8: looping wraparound of the animation clock -/


/-- C8.  The per-tick mapping from elapsed time to render payload is
periodic in the derived duration `D`: for `0 ≤ x < D` the frame computed at
elapsed `D + x` equals the frame at elapsed `x`, because the tick computes
`progress = (elapsed % duration) / duration` and
`distance = progress · totalLength`, and `(D + x) % D = x % D = x`. -/
theorem animate_progress_wraparound (M : JsMath) (connectionsList : List Connection)
    (shapes : List BaseShape) (cfg : AnimationConfig) (x : ℚ)
    (h0 : 0 ≤ x)
    (hx : x < animateDuration cfg (circuitTotalLength (buildCircuit M shapes connectionsList))) :
    animateFrame M connectionsList shapes cfg
        (animateDuration cfg (circuitTotalLength (buildCircuit M shapes connectionsList)) + x)
      = animateFrame M connectionsList shapes cfg x := by
  have hDpos :
      0 < animateDuration cfg (circuitTotalLength (buildCircuit M shapes connectionsList)) :=
    lt_of_le_of_lt h0 hx
  have e1 : jsMod
      (animateDuration cfg (circuitTotalLength (buildCircuit M shapes connectionsList)) + x)
      (animateDuration cfg (circuitTotalLength (buildCircuit M shapes connectionsList))) = x := by
    rw [add_comm]
    exact jsMod_add_self_left x _ h0 hDpos hx
  have e2 : jsMod x
      (animateDuration cfg (circuitTotalLength (buildCircuit M shapes connectionsList))) = x :=
    jsMod_of_nonneg_of_lt x _ h0 hDpos hx
  simp only [animateFrame]
  rw [e1, e2]

/-- The concrete path length of `A—B` under `Msq`: identity `sqrt` of the
squared distance 116². -/
theorem pathLen_ab : calculatePathLength Msq [shapeA, shapeB] connAB = 13456 := by
  have h1 : List.find? (fun s => s.id == connAB.fromShapeId) [shapeA, shapeB]
      = some shapeA := rfl
  have h2 : List.find? (fun s => s.id == connAB.toShapeId) [shapeA, shapeB]
      = some shapeB := rfl
  simp only [calculatePathLength, h1, h2]
  norm_num [resolveEndpoint, getAnchorPosition, connAB, shapeA, shapeB, Msq]

/-- The concrete total length of the single-connection circuit `A—B`. -/
theorem totalLen_ab :
    circuitTotalLength (buildCircuit Msq [shapeA, shapeB] [connAB]) = 13456 := by
  simp [circuitTotalLength, buildCircuit, CircuitSegment.endDistance, pathLen_ab]

/-- Witness for `animate_progress_wraparound`: the single straight connection
`A—B` under `Msq` has total length 13456, hence duration 134560 ms; the
offset `x = 100` lies inside one period. -/
theorem animate_progress_wraparound_w :
    (0 : ℚ) ≤ 100 ∧
    (100 : ℚ) < animateDuration defaultCfg
      (circuitTotalLength (buildCircuit Msq [shapeA, shapeB] [connAB])) ∧
    animateFrame Msq [connAB] [shapeA, shapeB] defaultCfg
        (animateDuration defaultCfg
          (circuitTotalLength (buildCircuit Msq [shapeA, shapeB] [connAB])) + 100)
      = animateFrame Msq [connAB] [shapeA, shapeB] defaultCfg 100 :=
  ⟨by norm_num,
    by rw [totalLen_ab]; norm_num [animateDuration, effectiveSpeed, defaultCfg],
    animate_progress_wraparound Msq [connAB] [shapeA, shapeB] defaultCfg 100
      (by norm_num)
      (by rw [totalLen_ab]; norm_num [animateDuration, effectiveSpeed, defaultCfg])⟩

/-! ## C7: connection length -/


theorem bezier_fold_spec (M : JsMath) (fromPoint control toPoint : Point) (samples : ℕ)
    (k : ℕ) :
    (List.range k).foldl (bezierLengthStep M fromPoint control toPoint samples) (0, fromPoint)
      = (∑ i in Finset.range k,
          euclidDist M (curveSample M fromPoint control toPoint samples i)
            (curveSample M fromPoint control toPoint samples (i + 1)),
         curveSample M fromPoint control toPoint samples k) := by
  induction k with
  | zero => simp [curveSample]
  | succ n ih =>
      rw [List.range_succ, List.foldl_append, ih]
      simp [bezierLengthStep, Finset.sum_range_succ, curveSample, euclidDist]

/-- C7.  For any library `sqrt` that is non-negative on non-negative inputs,
every connection length is non-negative; it equals the Euclidean distance
between the two resolved endpoints exactly when `curveOffset` is absent; with
`curveOffset` present it is the sum of the 20 consecutive sample distances of
the quadratic Bézier polyline; and it is 0 whenever either endpoint shape is
missing from the lookup. -/
theorem calculatePathLength_spec (M : JsMath)
    (hs : ∀ x : ℚ, 0 ≤ x → 0 ≤ M.sqrt x)
    (shapes : List BaseShape) (connection : Connection) :
    0 ≤ calculatePathLength M shapes connection ∧
    (∀ fromShape toShape,
      shapes.find? (fun s => s.id == connection.fromShapeId) = some fromShape →
      shapes.find? (fun s => s.id == connection.toShapeId) = some toShape →
      connection.curveOffset = none →
      calculatePathLength M shapes connection
        = euclidDist M (resolveEndpoint M fromShape connection.fromAnchor)
            (resolveEndpoint M toShape connection.toAnchor)) ∧
    (∀ fromShape toShape curveOffset,
      shapes.find? (fun s => s.id == connection.fromShapeId) = some fromShape →
      shapes.find? (fun s => s.id == connection.toShapeId) = some toShape →
      connection.curveOffset = some curveOffset →
      calculatePathLength M shapes connection
        = ∑ i in Finset.range 20,
            euclidDist M
              (curveSample M (resolveEndpoint M fromShape connection.fromAnchor)
                { x := ((resolveEndpoint M fromShape connection.fromAnchor).x
                        + (resolveEndpoint M toShape connection.toAnchor).x) / 2
                      + curveOffset.x,
                  y := ((resolveEndpoint M fromShape connection.fromAnchor).y
                        + (resolveEndpoint M toShape connection.toAnchor).y) / 2
                      + curveOffset.y }
                (resolveEndpoint M toShape connection.toAnchor) 20 i)
              (curveSample M (resolveEndpoint M fromShape connection.fromAnchor)
                { x := ((resolveEndpoint M fromShape connection.fromAnchor).x
                        + (resolveEndpoint M toShape connection.toAnchor).x) / 2
                      + curveOffset.x,
                  y := ((resolveEndpoint M fromShape connection.fromAnchor).y
                        + (resolveEndpoint M toShape connection.toAnchor).y) / 2
                      + curveOffset.y }
                (resolveEndpoint M toShape connection.toAnchor) 20 (i + 1))) ∧
    ((shapes.find? (fun s => s.id == connection.fromShapeId) = none ∨
      shapes.find? (fun s => s.id == connection.toShapeId) = none) →
      calculatePathLength M shapes connection = 0) := by
  have hdist : ∀ p q : Point, 0 ≤ euclidDist M p q := by
    intro p q
    exact hs _ (add_nonneg (mul_self_nonneg _) (mul_self_nonneg _))
  have h2 : ∀ fromShape toShape,
      shapes.find? (fun s => s.id == connection.fromShapeId) = some fromShape →
      shapes.find? (fun s => s.id == connection.toShapeId) = some toShape →
      connection.curveOffset = none →
      calculatePathLength M shapes connection
        = euclidDist M (resolveEndpoint M fromShape connection.fromAnchor)
            (resolveEndpoint M toShape connection.toAnchor) := by
    intro fromShape toShape hf ht hc
    unfold calculatePathLength
    rw [hf, ht, hc]
    rfl
  have h3 : ∀ fromShape toShape curveOffset,
      shapes.find? (fun s => s.id == connection.fromShapeId) = some fromShape →
      shapes.find? (fun s => s.id == connection.toShapeId) = some toShape →
      connection.curveOffset = some curveOffset →
      calculatePathLength M shapes connection
        = ∑ i in Finset.range 20,
            euclidDist M
              (curveSample M (resolveEndpoint M fromShape connection.fromAnchor)
                { x := ((resolveEndpoint M fromShape connection.fromAnchor).x
                        + (resolveEndpoint M toShape connection.toAnchor).x) / 2
                      + curveOffset.x,
                  y := ((resolveEndpoint M fromShape connection.fromAnchor).y
                        + (resolveEndpoint M toShape connection.toAnchor).y) / 2
                      + curveOffset.y }
                (resolveEndpoint M toShape connection.toAnchor) 20 i)
              (curveSample M (resolveEndpoint M fromShape connection.fromAnchor)
                { x := ((resolveEndpoint M fromShape connection.fromAnchor).x
                        + (resolveEndpoint M toShape connection.toAnchor).x) / 2
                      + curveOffset.x,
                  y := ((resolveEndpoint M fromShape connection.fromAnchor).y
                        + (resolveEndpoint M toShape connection.toAnchor).y) / 2
                      + curveOffset.y }
                (resolveEndpoint M toShape connection.toAnchor) 20 (i + 1)) := by
    intro fromShape toShape curveOffset hf ht hc
    unfold calculatePathLength
    rw [hf, ht, hc]
    exact congrArg Prod.fst (bezier_fold_spec M _ _ _ 20 20)
  have h4 : (shapes.find? (fun s => s.id == connection.fromShapeId) = none ∨
      shapes.find? (fun s => s.id == connection.toShapeId) = none) →
      calculatePathLength M shapes connection = 0 := by
    intro h
    unfold calculatePathLength
    rcases h with h | h
    · rw [h]
    · rw [h]
      cases shapes.find? (fun s => s.id == connection.fromShapeId) <;> rfl
  refine ⟨?_, h2, h3, h4⟩
  cases hf : shapes.find? (fun s => s.id == connection.fromShapeId) with
  | none => rw [h4 (Or.inl hf)]
  | some fromShape =>
      cases ht : shapes.find? (fun s => s.id == connection.toShapeId) with
      | none => rw [h4 (Or.inr ht)]
      | some toShape =>
          cases hc : connection.curveOffset with
          | none => rw [h2 fromShape toShape hf ht hc]; exact hdist _ _
          | some curveOffset =>
              rw [h3 fromShape toShape curveOffset hf ht hc]
              exact Finset.sum_nonneg (fun i _ => hdist _ _)

/-- Witness for `calculatePathLength_spec` at `Msq` and the concrete straight
connection `A—B`: non-negativity and the exact-distance equation hold there. -/
theorem calculatePathLength_spec_w :
    (∀ x : ℚ, 0 ≤ x → 0 ≤ Msq.sqrt x) ∧
    0 ≤ calculatePathLength Msq [shapeA, shapeB] connAB :=
  ⟨fun _ hx => hx, (calculatePathLength_spec Msq (fun _ hx => hx) [shapeA, shapeB] connAB).1⟩

/-! ## C5: nearest-anchor round trip -/



theorem nearest_fold_inv (M : JsMath) (shape : BaseShape) (point : Point) :
    ∀ k : ℕ, 1 ≤ k →
    ∃ j : ℕ, j < k ∧
      (List.range k).foldl (nearestStep M shape point) none
        = some (euclidDist M point (getAnchorPosition M shape { position := (j : ℚ) / 10 }),
            { position := (j : ℚ) / 10 }) ∧
      (∀ i : ℕ, i < k →
        euclidDist M point (getAnchorPosition M shape { position := (j : ℚ) / 10 })
          ≤ euclidDist M point (getAnchorPosition M shape { position := (i : ℚ) / 10 })) ∧
      (∀ i : ℕ, i < j →
        euclidDist M point (getAnchorPosition M shape { position := (j : ℚ) / 10 })
          < euclidDist M point (getAnchorPosition M shape { position := (i : ℚ) / 10 })) := by
  intro k
  induction k with
  | zero => intro h; omega
  | succ n ih =>
      intro _
      by_cases hn : 1 ≤ n
      · obtain ⟨j, hj, hfold, hle, hlt⟩ := ih hn
        rw [List.range_succ, List.foldl_append, hfold]
        by_cases hcmp :
            euclidDist M point (getAnchorPosition M shape { position := (n : ℚ) / 10 })
              < euclidDist M point (getAnchorPosition M shape { position := (j : ℚ) / 10 })
        · refine ⟨n, by omega, ?_, ?_, ?_⟩
          · simp only [nearestStep, List.foldl_cons, List.foldl_nil]
            rw [if_pos hcmp]
          · intro i hi
            rcases Nat.lt_succ_iff_lt_or_eq.mp hi with hi | rfl
            · exact le_of_lt (lt_of_lt_of_le hcmp (hle i hi))
            · exact le_refl _
          · intro i hi
            exact lt_of_lt_of_le hcmp (hle i hi)
        · refine ⟨j, by omega, ?_, ?_, hlt⟩
          · simp only [nearestStep, List.foldl_cons, List.foldl_nil]
            rw [if_neg hcmp]
          · intro i hi
            rcases Nat.lt_succ_iff_lt_or_eq.mp hi with hi | rfl
            · exact hle i hi
            · exact le_of_not_lt hcmp
      · have hn0 : n = 0 := by omega
        subst hn0
        refine ⟨0, by omega, ?_, ?_, ?_⟩
        · rfl
        · intro i hi
          interval_cases i
          exact le_refl _
        · intro i hi
          omega

/-- C5 (counterexample).  The round-trip claim — for every monotone library
`sqrt`, every shape and every anchor `a ∈ [0, 1)`, `findNearestAnchor` applied
to the perimeter point at `a` returns the snap value nearest to `a` — is
false.  On a thin 40×2 rectangle the perimeter point at `a = 0.445` lies on
the top edge at `(37.38, 0)`; the anchor-value-nearest snap is `0.4` (top
edge, `(33.6, 0)`, distance `3.78`), but the snap `0.5` sits on the bottom
edge at `(40, 2)` only `≈3.30` away across the thin shape, so the Euclidean
search returns `0.5`.  The library `Msq` has the identity `sqrt`, which is
strictly monotone, so every distance comparison the code makes orders exactly
as under the true square root; the shape geometry itself consults no `sqrt`,
so the traced branches coincide with the floating-point execution. -/
theorem nearestAnchor_roundtrip_false :
    ¬ (∀ M : JsMath, StrictMono M.sqrt →
        ∀ (shape : BaseShape) (a : ℚ), 0 ≤ a → a < 1 →
          (findNearestAnchor M shape
              (getAnchorPosition M shape { position := a })).position
            = specNearestSnap a) := by
  intro h
  have h1 := h Msq (fun _ _ hab => hab) rectShape (445/1000) (by norm_num) (by norm_num)
  have h2 : (findNearestAnchor Msq rectShape
      (getAnchorPosition Msq rectShape { position := 445/1000 })).position = 1/2 := by
    have hpt : getAnchorPosition Msq rectShape { position := 445/1000 }
        = { x := 1869/50, y := 0 } := by
      norm_num [getAnchorPosition, Msq, rectShape]
    obtain ⟨j, hj10, hfold, hle, hlt⟩ := nearest_fold_inv Msq rectShape
      (getAnchorPosition Msq rectShape { position := 445/1000 }) 10 (by omega)
    have hle5 := hle 5 (by omega)
    rw [hpt] at hle5
    unfold findNearestAnchor
    rw [hfold]
    interval_cases j
    all_goals norm_num [euclidDist, getAnchorPosition, Msq, rectShape] at hle5 ⊢
  have h3 : specNearestSnap (445/1000) = 2/5 := by
    simp only [specNearestSnap, show List.range 10 = [0,1,2,3,4,5,6,7,8,9] from rfl,
      List.foldl_cons, List.foldl_nil]
    norm_num [abs, max_def]
  rw [h2, h3] at h1
  norm_num at h1

/-- C5 (amended).  What `findNearestAnchor` actually returns on the perimeter
point (or any point): the first snap anchor among `0, 0.1, …, 0.9` minimizing
the Euclidean pixel distance to the queried point — minimal among all ten
candidates, and strictly smaller than every earlier candidate (first-minimum
tie-break).  This need not be the snap nearest to the queried anchor value;
on the triangle's discontinuous parametrization it can differ, as in the
counterexample. -/
theorem findNearestAnchor_is_argmin (M : JsMath) (shape : BaseShape) (point : Point) :
    ∃ j : ℕ, j < 10 ∧
      findNearestAnchor M shape point = { position := (j : ℚ) / 10 } ∧
      (∀ i : ℕ, i < 10 →
        euclidDist M point (getAnchorPosition M shape { position := (j : ℚ) / 10 })
          ≤ euclidDist M point (getAnchorPosition M shape { position := (i : ℚ) / 10 })) ∧
      (∀ i : ℕ, i < j →
        euclidDist M point (getAnchorPosition M shape { position := (j : ℚ) / 10 })
          < euclidDist M point (getAnchorPosition M shape { position := (i : ℚ) / 10 })) := by
  obtain ⟨j, hj, hfold, hle, hlt⟩ := nearest_fold_inv M shape point 10 (by omega)
  refine ⟨j, hj, ?_, hle, hlt⟩
  unfold findNearestAnchor
  rw [hfold]

/-! ## C1: circuit partition invariant -/



theorem isChainFrom_append (d : ℚ) (l1 l2 : List CircuitSegment)
    (h1 : IsChainFrom d l1) (h2 : IsChainFrom (chainEnd d l1) l2) :
    IsChainFrom d (l1 ++ l2) := by
  induction l1 generalizing d with
  | nil => exact h2
  | cons s rest ih =>
      exact ⟨h1.1, ih s.endDistance h1.2 h2⟩

theorem transitionSegs_chain (M : JsMath) (shapes : List BaseShape)
    (currentShapeId : String) (currentExitAnchor entryAnchor : Option ℚ) (cum : ℚ) :
    IsChainFrom cum (transitionSegs M shapes currentShapeId currentExitAnchor entryAnchor cum)
    ∧ chainEnd cum (transitionSegs M shapes currentShapeId currentExitAnchor entryAnchor cum)
      = cum + segsLength
          (transitionSegs M shapes currentShapeId currentExitAnchor entryAnchor cum) := by
  rcases currentExitAnchor with _ | exitA <;> rcases entryAnchor with _ | entryA
  · simp [transitionSegs, IsChainFrom, chainEnd, segsLength]
  · simp [transitionSegs, IsChainFrom, chainEnd, segsLength]
  · simp [transitionSegs, IsChainFrom, chainEnd, segsLength]
  · by_cases he : exitA = entryA
    · simp [transitionSegs, he, IsChainFrom, chainEnd, segsLength]
    · rcases hf : shapes.find? (fun s => s.id == currentShapeId) with _ | shape
      · simp [transitionSegs, he, hf, IsChainFrom, chainEnd, segsLength]
      · simp [transitionSegs, he, hf, IsChainFrom, chainEnd, segsLength,
          CircuitSegment.startDistance, CircuitSegment.endDistance]

theorem buildLoop_chain (M : JsMath) (shapes : List BaseShape)
    (connectionsList : List Connection) :
    ∀ (fuel : ℕ) (used : List String) (cur : String) (exitA : Option ℚ) (cum : ℚ),
      IsChainFrom cum (buildLoop M shapes connectionsList fuel used cur exitA cum) := by
  intro fuel
  induction fuel with
  | zero => intro used cur exitA cum; exact trivial
  | succ n ih =>
      intro used cur exitA cum
      unfold buildLoop
      split
      · split
        · rename_i nextConnection _
          refine isChainFrom_append _ _ _ (transitionSegs_chain M shapes cur exitA _ cum).1 ?_
          rw [(transitionSegs_chain M shapes cur exitA _ cum).2]
          exact ⟨rfl, ih _ _ _ _⟩
        · split
          · exact ⟨rfl, ih _ _ _ _⟩
          · exact trivial
      · exact trivial

theorem isChainFrom_chain' (d : ℚ) (l : List CircuitSegment) (h : IsChainFrom d l) :
    List.Chain' (fun a b => a.endDistance = b.startDistance) l := by
  induction l generalizing d with
  | nil => exact List.chain'_nil
  | cons s rest ih =>
      cases rest with
      | nil => simp
      | cons t rest2 =>
          exact List.Chain'.cons (h.2.1.symm) (ih s.endDistance h.2)

theorem isChainFrom_last (d : ℚ) (l : List CircuitSegment) (h : IsChainFrom d l) :
    ∀ hne : l ≠ [], (l.getLast hne).endDistance = d + segsLength l := by
  induction l generalizing d with
  | nil => intro hne; exact absurd rfl hne
  | cons s rest ih =>
      intro hne
      cases rest with
      | nil =>
          simp [List.getLast, segsLength, h.1]
      | cons t rest2 =>
          rw [List.getLast_cons (by simp)]
          rw [ih s.endDistance h.2 (by simp)]
          simp only [segsLength, List.map_cons, List.sum_cons, h.1]
          ring

theorem isChainFrom_head (d : ℚ) (l : List CircuitSegment) (h : IsChainFrom d l) :
    ∀ hne : l ≠ [], (l.head hne).startDistance = d := by
  cases l with
  | nil => intro hne; exact absurd rfl hne
  | cons s rest => intro _; exact h.1

/-- C1.  For every non-empty connection list the segment list built by
`buildCircuit` partitions `[0, totalLength)`: it is non-empty, contiguous
from 0 (each segment starts where the previous ended), its first segment
starts at 0, and its last segment ends at the sum of all individual segment
lengths. -/
theorem buildCircuit_partition (M : JsMath) (shapes : List BaseShape)
    (connectionsList : List Connection) (hne : connectionsList ≠ []) :
    buildCircuit M shapes connectionsList ≠ [] ∧
    IsChainFrom 0 (buildCircuit M shapes connectionsList) ∧
    List.Chain' (fun a b => a.endDistance = b.startDistance)
      (buildCircuit M shapes connectionsList) ∧
    ∀ h : buildCircuit M shapes connectionsList ≠ [],
      ((buildCircuit M shapes connectionsList).head h).startDistance = 0 ∧
      ((buildCircuit M shapes connectionsList).getLast h).endDistance
        = segsLength (buildCircuit M shapes connectionsList) := by
  have hchain : IsChainFrom 0 (buildCircuit M shapes connectionsList) := by
    cases connectionsList with
    | nil => exact absurd rfl hne
    | cons c rest =>
        cases rest with
        | nil => exact ⟨rfl, trivial⟩
        | cons c2 rest2 => exact ⟨rfl, buildLoop_chain M shapes _ _ _ _ _ _⟩
  have hne2 : buildCircuit M shapes connectionsList ≠ [] := by
    cases connectionsList with
    | nil => exact absurd rfl hne
    | cons c rest =>
        cases rest with
        | nil => simp [buildCircuit]
        | cons c2 rest2 => simp [buildCircuit]
  exact ⟨hne2, hchain, isChainFrom_chain' 0 _ hchain,
    fun h => ⟨isChainFrom_head 0 _ hchain h, by simpa using isChainFrom_last 0 _ hchain h⟩⟩

/-- Witness for `buildCircuit_partition`: the two-connection chain scenario
is non-empty and its circuit is a non-empty contiguous chain from 0. -/
theorem buildCircuit_partition_w :
    ([connAB, connBC] : List Connection) ≠ [] ∧
    buildCircuit Msq [shapeA, shapeB, shapeC] [connAB, connBC] ≠ [] ∧
    IsChainFrom 0 (buildCircuit Msq [shapeA, shapeB, shapeC] [connAB, connBC]) :=
  ⟨by simp,
    (buildCircuit_partition Msq [shapeA, shapeB, shapeC] [connAB, connBC] (by simp)).1,
    (buildCircuit_partition Msq [shapeA, shapeB, shapeC] [connAB, connBC] (by simp)).2.1⟩

/-! ## C10: every connection appears in exactly one connection segment -/



theorem transitionSegs_no_conn (M : JsMath) (shapes : List BaseShape)
    (currentShapeId : String) (e n : Option ℚ) (cum : ℚ) (c : Connection) :
    connSegsFor (transitionSegs M shapes currentShapeId e n cum) c = [] := by
  rcases e with _ | exitA <;> rcases n with _ | entryA
  · rfl
  · rfl
  · rfl
  · by_cases he : exitA = entryA
    · simp [transitionSegs, he, connSegsFor]
    · rcases hf : shapes.find? (fun s => s.id == currentShapeId) with _ | shape
      · simp [transitionSegs, he, hf, connSegsFor]
      · simp [transitionSegs, he, hf, connSegsFor, isConnSegFor]

theorem mem_of_subset_full (ids used : List String) (hids : ids.Nodup) (hused : used.Nodup)
    (hsub : ∀ x ∈ used, x ∈ ids) (hlen : ids.length ≤ used.length) :
    ∀ y ∈ ids, y ∈ used := by
  intro y hy
  have h1 : used.toFinset ⊆ ids.toFinset := by
    intro x hx
    rw [List.mem_toFinset] at hx ⊢
    exact hsub x hx
  have h2 : ids.toFinset.card ≤ used.toFinset.card := by
    rw [List.toFinset_card_of_nodup hids, List.toFinset_card_of_nodup hused]
    exact hlen
  have h3 := Finset.eq_of_subset_of_card_le h1 h2
  rw [← List.mem_toFinset, ← h3, List.mem_toFinset] at hy
  exact hy

theorem connSegsFor_nil (c : Connection) : connSegsFor [] c = [] := rfl

theorem connSegsFor_append (l1 l2 : List CircuitSegment) (c : Connection) :
    connSegsFor (l1 ++ l2) c = connSegsFor l1 c ++ connSegsFor l2 c := by
  simp [connSegsFor]

theorem connSegsFor_cons_connection (nc : Connection) (r : Bool) (a b : ℚ)
    (rest : List CircuitSegment) (c : Connection) :
    (connSegsFor (CircuitSegment.connection nc r a b :: rest) c).length
      = (if nc.id = c.id then 1 else 0) + (connSegsFor rest c).length := by
  simp only [connSegsFor, List.filter_cons, isConnSegFor]
  by_cases h : nc.id = c.id
  · simp [h]
    omega
  · simp [h]

theorem buildLoop_count (M : JsMath) (shapes : List BaseShape)
    (connectionsList : List Connection)
    (hnodup : (connectionsList.map (fun c => c.id)).Nodup) :
    ∀ (fuel : ℕ) (used : List String) (cur : String) (exitA : Option ℚ) (cum : ℚ),
      used.Nodup →
      (∀ x ∈ used, x ∈ connectionsList.map (fun c => c.id)) →
      connectionsList.length ≤ fuel + used.length →
      ∀ c ∈ connectionsList,
        (connSegsFor (buildLoop M shapes connectionsList fuel used cur exitA cum) c).length
          = if c.id ∈ used then 0 else 1 := by
  intro fuel
  induction fuel with
  | zero =>
      intro used cur exitA cum hun hsub hlen c hc
      have hmem : c.id ∈ used := by
        apply mem_of_subset_full (connectionsList.map (fun c => c.id)) used hnodup hun hsub
          (by simpa using hlen)
        exact List.mem_map_of_mem _ hc
      simp [buildLoop, connSegsFor, hmem]
  | succ n ih =>
      intro used cur exitA cum hun hsub hlen c hc
      unfold buildLoop
      by_cases hguard : used.length < connectionsList.length
      · rw [if_pos hguard]
        rcases hfind : connectionsList.find? (fun c2 =>
            !used.contains c2.id && (c2.fromShapeId == cur || c2.toShapeId == cur))
          with _ | nc
        · rcases hfresh : connectionsList.find? (fun c2 => !used.contains c2.id) with _ | nc
          · simp only [hfind, hfresh]
            have hcmem : c.id ∈ used := by
              have := List.find?_eq_none.mp hfresh c hc
              simpa using this
            simp [connSegsFor, hcmem]
          · have hpred := List.find?_some hfresh
            have hncmem : nc ∈ connectionsList := List.mem_of_find?_eq_some hfresh
            have hncnotused : nc.id ∉ used := by simpa using hpred
            have hins : insertId used nc.id = nc.id :: used := by
              simp [insertId, hncnotused]
            have hrec := ih (insertId used nc.id) (getExitAnchor nc false).1
              (getExitAnchor nc false).2
              (cum + calculatePathLength M shapes nc)
              (by rw [hins]; exact List.nodup_cons.mpr ⟨hncnotused, hun⟩)
              (by
                rw [hins]
                intro x hx
                rcases List.mem_cons.mp hx with rfl | hx
                · exact List.mem_map_of_mem _ hncmem
                · exact hsub x hx)
              (by rw [hins]; simp; omega)
              c hc
            simp only [hfind, hfresh]
            rw [connSegsFor_cons_connection, hrec, hins]
            by_cases hid : nc.id = c.id
            · have hcnot : c.id ∉ used := hid ▸ hncnotused
              simp [hid, hcnot, List.mem_cons]
            · by_cases hcu : c.id ∈ used
              · simp [hid, hcu, List.mem_cons]
              · simp [hid, hcu, List.mem_cons, Ne.symm hid]
        · have hpred := List.find?_some hfind
          have hncmem : nc ∈ connectionsList := List.mem_of_find?_eq_some hfind
          have hncnotused : nc.id ∉ used := by
            have := (Bool.and_eq_true _ _).mp hpred
            simpa using this.1
          have hins : insertId used nc.id = nc.id :: used := by
            simp [insertId, hncnotused]
          have hrec := ih (insertId used nc.id)
            (getExitAnchor nc (!(nc.fromShapeId == cur))).1
            (getExitAnchor nc (!(nc.fromShapeId == cur))).2
            ((cum + segsLength (transitionSegs M shapes cur exitA
                (getEntryAnchor nc (!(nc.fromShapeId == cur))).2 cum))
              + calculatePathLength M shapes nc)
            (by rw [hins]; exact List.nodup_cons.mpr ⟨hncnotused, hun⟩)
            (by
              rw [hins]
              intro x hx
              rcases List.mem_cons.mp hx with rfl | hx
              · exact List.mem_map_of_mem _ hncmem
              · exact hsub x hx)
            (by rw [hins]; simp; omega)
            c hc
          simp only [hfind]
          rw [connSegsFor_append, List.length_append,
            transitionSegs_no_conn M shapes cur _ _ cum c]
          rw [connSegsFor_cons_connection, hrec, hins]
          by_cases hid : nc.id = c.id
          · have hcnot : c.id ∉ used := hid ▸ hncnotused
            simp [hid, hcnot, List.mem_cons]
          · by_cases hcu : c.id ∈ used
            · simp [hid, hcu, List.mem_cons]
            · simp [hid, hcu, List.mem_cons, Ne.symm hid]
      · rw [if_neg hguard]
        have hmem : c.id ∈ used := by
          apply mem_of_subset_full (connectionsList.map (fun c => c.id)) used hnodup hun hsub
            (by simpa using Nat.le_of_not_lt hguard)
          exact List.mem_map_of_mem _ hc
        simp [connSegsFor, hmem]



theorem buildLoop_conn_lengths (M : JsMath) (shapes : List BaseShape)
    (connectionsList : List Connection) :
    ∀ (fuel : ℕ) (used : List String) (cur : String) (exitA : Option ℚ) (cum : ℚ)
      (c2 : Connection) (r : Bool) (a b : ℚ),
      CircuitSegment.connection c2 r a b
          ∈ buildLoop M shapes connectionsList fuel used cur exitA cum →
      c2 ∈ connectionsList ∧ b = a + calculatePathLength M shapes c2 := by
  intro fuel
  induction fuel with
  | zero => intro used cur exitA cum c2 r a b hmem; simp [buildLoop] at hmem
  | succ n ih =>
      intro used cur exitA cum c2 r a b hmem
      unfold buildLoop at hmem
      by_cases hguard : used.length < connectionsList.length
      · rw [if_pos hguard] at hmem
        rcases hfind : connectionsList.find? (fun c3 =>
            !used.contains c3.id && (c3.fromShapeId == cur || c3.toShapeId == cur))
          with _ | nc
        · rw [hfind] at hmem
          rcases hfresh : connectionsList.find? (fun c3 => !used.contains c3.id) with _ | nc
          · rw [hfresh] at hmem
            simp at hmem
          · rw [hfresh] at hmem
            rcases List.mem_cons.mp hmem with heq | hmem2
            · obtain ⟨h1, _, h3, h4⟩ := CircuitSegment.connection.inj heq.symm
              subst h1 h3 h4
              exact ⟨List.mem_of_find?_eq_some hfresh, rfl⟩
            · exact ih _ _ _ _ _ _ _ _ hmem2
        · rw [hfind] at hmem
          rcases List.mem_append.mp hmem with hts | hmem2
          · exfalso
            have : CircuitSegment.connection c2 r a b ∈ connSegsFor
                (transitionSegs M shapes cur exitA
                  (getEntryAnchor nc (!(nc.fromShapeId == cur))).2 cum) c2 := by
              rw [connSegsFor, List.mem_filter]
              exact ⟨hts, by simp [isConnSegFor]⟩
            rw [transitionSegs_no_conn] at this
            simp at this
          · rcases List.mem_cons.mp hmem2 with heq | hmem3
            · obtain ⟨h1, _, h3, h4⟩ := CircuitSegment.connection.inj heq.symm
              subst h1 h3 h4
              exact ⟨List.mem_of_find?_eq_some hfind, rfl⟩
            · exact ih _ _ _ _ _ _ _ _ hmem3
      · rw [if_neg hguard] at hmem
        simp at hmem

/-- C10.  With distinct connection ids, every input connection appears in
exactly one connection segment of `buildCircuit`'s output (none dropped, none
duplicated, including disconnected connections), every such segment spans
exactly that connection's computed path length, and a dangling connection
(either endpoint shape missing from the lookup) yields a segment with
`endDistance = startDistance`, because its length is 0. -/
theorem buildCircuit_each_connection_once (M : JsMath) (shapes : List BaseShape)
    (connectionsList : List Connection)
    (hnodup : (connectionsList.map (fun c => c.id)).Nodup) :
    ∀ c ∈ connectionsList,
      (connSegsFor (buildCircuit M shapes connectionsList) c).length = 1 ∧
      (∀ s ∈ connSegsFor (buildCircuit M shapes connectionsList) c,
        s.endDistance = s.startDistance + calculatePathLength M shapes c) ∧
      ((shapes.find? (fun s2 => s2.id == c.fromShapeId) = none ∨
        shapes.find? (fun s2 => s2.id == c.toShapeId) = none) →
        ∀ s ∈ connSegsFor (buildCircuit M shapes connectionsList) c,
          s.endDistance = s.startDistance) := by
  intro c hc
  have hlen : ∀ s ∈ connSegsFor (buildCircuit M shapes connectionsList) c,
      s.endDistance = s.startDistance + calculatePathLength M shapes c := by
    intro s hs
    rw [connSegsFor, List.mem_filter] at hs
    obtain ⟨hmem, hpred⟩ := hs
    cases s with
    | transition sh fa ta a b => simp [isConnSegFor] at hpred
    | connection c2 r a b =>
        have hid : c2.id = c.id := by simpa [isConnSegFor] using hpred
        have hc2 : c2 ∈ connectionsList ∧ b = a + calculatePathLength M shapes c2 := by
          cases connectionsList with
          | nil => simp [buildCircuit] at hmem
          | cons c1 rest =>
              cases rest with
              | nil =>
                  simp only [buildCircuit, List.mem_singleton] at hmem
                  obtain ⟨h1, _, h3, h4⟩ := CircuitSegment.connection.inj hmem
                  subst h1 h3 h4
                  exact ⟨List.mem_singleton_self c2, by ring⟩
              | cons c2' rest2 =>
                  rcases List.mem_cons.mp hmem with heq | hmem2
                  · obtain ⟨h1, _, h3, h4⟩ := CircuitSegment.connection.inj heq
                    subst h1 h3 h4
                    exact ⟨List.mem_cons_self _ _, by ring⟩
                  · exact buildLoop_conn_lengths M shapes _ _ _ _ _ _ _ _ _ _ hmem2
        have hceq : c2 = c :=
          List.inj_on_of_nodup_map hnodup hc2.1 hc hid
        rw [← hceq]
        exact hc2.2
  refine ⟨?_, hlen, ?_⟩
  · cases connectionsList with
    | nil => simp at hc
    | cons c1 rest =>
        cases rest with
        | nil =>
            have : c = c1 := List.mem_singleton.mp hc
            subst this
            simp only [buildCircuit]
            rw [connSegsFor_cons_connection]
            simp [connSegsFor]
        | cons c2' rest2 =>
            simp only [buildCircuit]
            rw [connSegsFor_cons_connection]
            have hins : insertId [] c1.id = [c1.id] := rfl
            rw [hins]
            have hcount := buildLoop_count M shapes (c1 :: c2' :: rest2) hnodup
              (c1 :: c2' :: rest2).length [c1.id] (getExitAnchor c1 false).1
              (getExitAnchor c1 false).2 (calculatePathLength M shapes c1)
              (List.nodup_singleton _)
              (by
                intro x hx
                rw [List.mem_singleton] at hx
                subst hx
                exact List.mem_map_of_mem _ (List.mem_cons_self _ _))
              (by simp)
              c hc
            rw [hcount]
            by_cases hid : c1.id = c.id
            · simp [hid, List.mem_singleton]
            · simp [hid, List.mem_singleton, Ne.symm hid]
  · intro hnone s hs
    have hzero : calculatePathLength M shapes c = 0 := by
      unfold calculatePathLength
      rcases hnone with h | h
      · rw [h]
      · rw [h]
        cases shapes.find? (fun s2 => s2.id == c.fromShapeId) <;> rfl
    rw [hlen s hs, hzero, add_zero]

/-- Witness for `buildCircuit_each_connection_once`: in the two-connection
chain the ids are distinct and `connAB` owns exactly one connection segment. -/
theorem buildCircuit_each_connection_once_w :
    (([connAB, connBC] : List Connection).map (fun c => c.id)).Nodup ∧
    connAB ∈ ([connAB, connBC] : List Connection) ∧
    (connSegsFor (buildCircuit Msq [shapeA, shapeB, shapeC] [connAB, connBC]) connAB).length
      = 1 :=
  ⟨by simp [connAB, connBC], by simp,
    (buildCircuit_each_connection_once Msq [shapeA, shapeB, shapeC] [connAB, connBC]
      (by simp [connAB, connBC]) connAB (by simp)).1⟩

/-! ## C4: perimeter behavior at the anchor-1 wraparound -/


theorem square_perimeter_continuous_at_one (M : JsMath) (shape : BaseShape)
    (hsq : shape.type = ShapeType.square)
    (hw : 0 < shape.width.getD 40) (hh : 0 < shape.height.getD 40) :
    TendstoAtOneLeft (fun a => getAnchorPosition M shape { position := a })
      (getAnchorPosition M shape { position := 0 }) := by
  intro ε hε
  set w := shape.width.getD 40 with hwdef
  set h := shape.height.getD 40 with hhdef
  set P := (w + h) * 2 with hPdef
  have hP : 0 < P := by rw [hPdef]; linarith
  have hp0 : getAnchorPosition M shape { position := 0 }
      = { x := shape.x, y := shape.y } := by
    unfold getAnchorPosition
    rw [hsq]
    simp only
    rw [if_pos (by rw [← hwdef]; simpa using hw)]
    simp
  refine ⟨min (ε / P) (h / P), by positivity, ?_⟩
  intro a ha1 ha2
  have hfar : P - a * P < h := by
    have h1 : 1 - a < min (ε / P) (h / P) := by linarith
    have h2 : 1 - a < h / P := lt_of_lt_of_le h1 (min_le_right _ _)
    calc P - a * P = (1 - a) * P := by ring
    _ < (h / P) * P := by exact mul_lt_mul_of_pos_right h2 hP
    _ = h := by field_simp
  have hclose : P - a * P < ε := by
    have h1 : 1 - a < min (ε / P) (h / P) := by linarith
    have h2 : 1 - a < ε / P := lt_of_lt_of_le h1 (min_le_left _ _)
    calc P - a * P = (1 - a) * P := by ring
    _ < (ε / P) * P := by exact mul_lt_mul_of_pos_right h2 hP
    _ = ε := by field_simp
  have hfa : getAnchorPosition M shape { position := a }
      = { x := shape.x, y := shape.y + h - (a * P - w * 2 - h) } := by
    unfold getAnchorPosition
    rw [hsq]
    simp only
    rw [if_neg (by rw [← hwdef, ← hhdef, ← hPdef]; nlinarith),
      if_neg (by rw [← hwdef, ← hhdef, ← hPdef]; nlinarith),
      if_neg (by rw [← hwdef, ← hhdef, ← hPdef]; nlinarith)]
  simp only [hfa, hp0]
  constructor
  · simpa using hε
  · have : shape.y + h - (a * P - w * 2 - h) - shape.y = P - a * P := by
      rw [hPdef]; ring
    rw [this, abs_of_pos (by nlinarith)]
    exact hclose


theorem triangle_perimeter_limit_at_one (M : JsMath) (shape : BaseShape)
    (htr : shape.type = ShapeType.triangle)
    (hw : 0 < shape.width.getD 40) (hh : 0 < shape.height.getD 40)
    (hL : 0 < M.sqrt ((shape.width.getD 40 / 2) ^ 2 + shape.height.getD 40 ^ 2)) :
    TendstoAtOneLeft (fun a => getAnchorPosition M shape { position := a })
      { x := shape.x + shape.width.getD 40 / 2, y := shape.y } ∧
    getAnchorPosition M shape { position := 0 }
      = { x := shape.x, y := shape.y + shape.height.getD 40 } ∧
    ({ x := shape.x + shape.width.getD 40 / 2, y := shape.y } : Point)
      ≠ { x := shape.x, y := shape.y + shape.height.getD 40 } := by
  set w := shape.width.getD 40 with hwdef
  set h := shape.height.getD 40 with hhdef
  set L := M.sqrt ((w / 2) ^ 2 + h ^ 2) with hLdef
  have hLne : L ≠ 0 := ne_of_gt hL
  refine ⟨?_, ?_, ?_⟩
  · intro ε hε
    have hPpos : 0 < L + L + w := by linarith
    refine ⟨min (L / (L + L + w))
      (min (2 * ε * L / ((L + L + w) * w)) (ε * L / ((L + L + w) * h))), by positivity, ?_⟩
    intro a ha1 ha2
    have hbound : 1 - a < min (L / (L + L + w))
        (min (2 * ε * L / ((L + L + w) * w)) (ε * L / ((L + L + w) * h))) := by linarith
    have hb1 : 1 - a < L / (L + L + w) := lt_of_lt_of_le hbound (min_le_left _ _)
    have hb2 : 1 - a < 2 * ε * L / ((L + L + w) * w) :=
      lt_of_lt_of_le hbound (le_trans (min_le_right _ _) (min_le_left _ _))
    have hb3 : 1 - a < ε * L / ((L + L + w) * h) :=
      lt_of_lt_of_le hbound (le_trans (min_le_right _ _) (min_le_right _ _))
    have hfar : (L + L + w) - a * (L + L + w) < L := by
      calc (L + L + w) - a * (L + L + w) = (1 - a) * (L + L + w) := by ring
      _ < (L / (L + L + w)) * (L + L + w) := mul_lt_mul_of_pos_right hb1 hPpos
      _ = L := by field_simp
    have key2 : (1 - a) * ((L + L + w) * w) < 2 * ε * L := by
      calc (1 - a) * ((L + L + w) * w)
          < (2 * ε * L / ((L + L + w) * w)) * ((L + L + w) * w) :=
            mul_lt_mul_of_pos_right hb2 (by positivity)
      _ = 2 * ε * L := by field_simp
    have key3 : (1 - a) * ((L + L + w) * h) < ε * L := by
      calc (1 - a) * ((L + L + w) * h)
          < (ε * L / ((L + L + w) * h)) * ((L + L + w) * h) :=
            mul_lt_mul_of_pos_right hb3 (by positivity)
      _ = ε * L := by field_simp
    have hfa : getAnchorPosition M shape { position := a }
        = { x := shape.x + w
              + (shape.x + w / 2 - (shape.x + w)) * ((a * (L + L + w) - L - w) / L),
            y := shape.y + h
              + (shape.y - (shape.y + h)) * ((a * (L + L + w) - L - w) / L) } := by
      unfold getAnchorPosition
      rw [htr]
      simp only
      rw [← hwdef, ← hhdef, ← hLdef]
      rw [if_neg (by nlinarith), if_neg (by nlinarith)]
    simp only [hfa]
    constructor
    · have hxdiff : shape.x + w
          + (shape.x + w / 2 - (shape.x + w)) * ((a * (L + L + w) - L - w) / L)
          - (shape.x + w / 2)
          = ((1 - a) * ((L + L + w) * w)) / (2 * L) := by
        field_simp
        ring
      have haa : 0 < 1 - a := by linarith
      rw [hxdiff, abs_of_pos (div_pos (mul_pos haa (mul_pos hPpos hw)) (by linarith))]
      rw [div_lt_iff (by linarith : (0:ℚ) < 2 * L)]
      linarith [key2]
    · have hydiff : shape.y + h
          + (shape.y - (shape.y + h)) * ((a * (L + L + w) - L - w) / L)
          - shape.y
          = ((1 - a) * ((L + L + w) * h)) / L := by
        field_simp
        ring
      have haa : 0 < 1 - a := by linarith
      rw [hydiff, abs_of_pos (div_pos (mul_pos haa (mul_pos hPpos hh)) hL)]
      rw [div_lt_iff hL]
      linarith [key3]
  · unfold getAnchorPosition
    rw [htr]
    simp only
    rw [← hwdef, ← hhdef, ← hLdef]
    rw [if_pos (by simpa using hL)]
    simp
  · intro hcontra
    have := congrArg Point.y hcontra
    simp only at this
    have hh2 : 0 < h := hh
    nlinarith [this]


theorem circle_perimeter_continuous_at_one (M : JsMath)
    (hcosCont : ∀ x₀ ε : ℚ, 0 < ε →
      ∃ δ, 0 < δ ∧ ∀ y, |y - x₀| < δ → |M.cos y - M.cos x₀| < ε)
    (hsinCont : ∀ x₀ ε : ℚ, 0 < ε →
      ∃ δ, 0 < δ ∧ ∀ y, |y - x₀| < δ → |M.sin y - M.sin x₀| < ε)
    (hcosPer : ∀ x, M.cos (x + M.pi * 2) = M.cos x)
    (hsinPer : ∀ x, M.sin (x + M.pi * 2) = M.sin x)
    (shape : BaseShape) (hc : shape.type = ShapeType.circle) :
    TendstoAtOneLeft (fun a => getAnchorPosition M shape { position := a })
      (getAnchorPosition M shape { position := 0 }) := by
  intro ε hε
  set r := shape.radius.getD 20 with hrdef
  have hε' : 0 < ε / (|r| + 1) := by positivity
  obtain ⟨δc, hδc, hcA⟩ := hcosCont (M.pi * 2 - M.pi / 2) (ε / (|r| + 1)) hε'
  obtain ⟨δs, hδs, hsA⟩ := hsinCont (M.pi * 2 - M.pi / 2) (ε / (|r| + 1)) hε'
  set N := 2 * |M.pi| + 1 with hNdef
  have hN : 0 < N := by positivity
  refine ⟨min (δc / N) (δs / N), by positivity, ?_⟩
  intro a ha1 ha2
  have hbound : 1 - a < min (δc / N) (δs / N) := by linarith
  have hangle : ∀ b : ℚ, b * M.pi * 2 - M.pi / 2 - (M.pi * 2 - M.pi / 2)
      = (b - 1) * (M.pi * 2) := by intro b; ring
  have habs : |a * M.pi * 2 - M.pi / 2 - (M.pi * 2 - M.pi / 2)| = (1 - a) * (2 * |M.pi|) := by
    rw [hangle, abs_mul, abs_of_neg (by linarith : a - 1 < 0), abs_mul]
    rw [show |(2:ℚ)| = 2 from by norm_num]
    ring
  have hclosec : |a * M.pi * 2 - M.pi / 2 - (M.pi * 2 - M.pi / 2)| < δc := by
    rw [habs]
    have h1 : 1 - a < δc / N := lt_of_lt_of_le hbound (min_le_left _ _)
    have h2 : (1 - a) * (2 * |M.pi|) ≤ (1 - a) * N := by
      apply mul_le_mul_of_nonneg_left _ (by linarith)
      rw [hNdef]; linarith
    calc (1 - a) * (2 * |M.pi|) ≤ (1 - a) * N := h2
    _ < (δc / N) * N := mul_lt_mul_of_pos_right h1 hN
    _ = δc := by field_simp
  have hcloses : |a * M.pi * 2 - M.pi / 2 - (M.pi * 2 - M.pi / 2)| < δs := by
    rw [habs]
    have h1 : 1 - a < δs / N := lt_of_lt_of_le hbound (min_le_right _ _)
    have h2 : (1 - a) * (2 * |M.pi|) ≤ (1 - a) * N := by
      apply mul_le_mul_of_nonneg_left _ (by linarith)
      rw [hNdef]; linarith
    calc (1 - a) * (2 * |M.pi|) ≤ (1 - a) * N := h2
    _ < (δs / N) * N := mul_lt_mul_of_pos_right h1 hN
    _ = δs := by field_simp
  have hcosEq : M.cos (M.pi * 2 - M.pi / 2) = M.cos (0 * M.pi * 2 - M.pi / 2) := by
    have := hcosPer (-(M.pi / 2))
    calc M.cos (M.pi * 2 - M.pi / 2) = M.cos (-(M.pi / 2) + M.pi * 2) := by ring_nf
    _ = M.cos (-(M.pi / 2)) := hcosPer _
    _ = M.cos (0 * M.pi * 2 - M.pi / 2) := by ring_nf
  have hsinEq : M.sin (M.pi * 2 - M.pi / 2) = M.sin (0 * M.pi * 2 - M.pi / 2) := by
    calc M.sin (M.pi * 2 - M.pi / 2) = M.sin (-(M.pi / 2) + M.pi * 2) := by ring_nf
    _ = M.sin (-(M.pi / 2)) := hsinPer _
    _ = M.sin (0 * M.pi * 2 - M.pi / 2) := by ring_nf
  have hfa : ∀ b : ℚ, getAnchorPosition M shape { position := b }
      = { x := shape.x + r * M.cos (b * M.pi * 2 - M.pi / 2),
          y := shape.y + r * M.sin (b * M.pi * 2 - M.pi / 2) } := by
    intro b
    unfold getAnchorPosition
    rw [hc]
  have hcdiff := hcA (a * M.pi * 2 - M.pi / 2) hclosec
  have hsdiff := hsA (a * M.pi * 2 - M.pi / 2) hcloses
  rw [hcosEq] at hcdiff
  rw [hsinEq] at hsdiff
  simp only [hfa]
  have hrbound : ∀ s u v : ℚ, |u - v| < ε / (|r| + 1) →
      |s + r * u - (s + r * v)| < ε := by
    intro s u v huv
    rw [show s + r * u - (s + r * v) = r * (u - v) by ring, abs_mul]
    calc |r| * |u - v| ≤ |r| * (ε / (|r| + 1)) :=
          mul_le_mul_of_nonneg_left (le_of_lt huv) (abs_nonneg r)
    _ < ε := by
        rw [← mul_div_assoc, div_lt_iff (by positivity : (0:ℚ) < |r| + 1)]
        nlinarith [abs_nonneg r]
  exact ⟨hrbound shape.x _ _ hcdiff, hrbound shape.y _ _ hsdiff⟩


/-- C4 (counterexample).  The claim — for every shape kind, the perimeter
point at anchor 0 equals the anchor→1 limit — is false for the triangle,
under any math library with continuous, 2π-periodic `cos`/`sin` and a
monotone non-negative `sqrt` (`Mtri` is such a library).  The triangle's
traversal runs left edge bottom-left→apex, bottom edge bottom-left→bottom-right,
right edge bottom-right→apex, so the anchor→1 limit is the apex (top-center),
while anchor 0 is the bottom-left vertex: were both limits to hold, the
default triangle's apex x-coordinate 20 would be within 5+5 of the bottom-left
x-coordinate 0. -/
theorem anchor_one_limit_claim_false :
    ¬ (∀ M : JsMath,
        (∀ x₀ ε : ℚ, 0 < ε →
          ∃ δ, 0 < δ ∧ ∀ y, |y - x₀| < δ → |M.cos y - M.cos x₀| < ε) →
        (∀ x₀ ε : ℚ, 0 < ε →
          ∃ δ, 0 < δ ∧ ∀ y, |y - x₀| < δ → |M.sin y - M.sin x₀| < ε) →
        (∀ x, M.cos (x + M.pi * 2) = M.cos x) →
        (∀ x, M.sin (x + M.pi * 2) = M.sin x) →
        StrictMono M.sqrt →
        (∀ x : ℚ, 0 ≤ x → 0 ≤ M.sqrt x) →
        ∀ shape : BaseShape,
          TendstoAtOneLeft (fun a => getAnchorPosition M shape { position := a })
            (getAnchorPosition M shape { position := 0 })) := by
  intro h
  have hL : 0 < Mtri.sqrt ((triShape.width.getD 40 / 2) ^ 2 + triShape.height.getD 40 ^ 2) := by
    norm_num [Mtri, mysqrt, triShape]
  have h2 := h Mtri
    (fun x₀ ε hε => ⟨1, by norm_num, fun y _ => by simpa [Mtri] using hε⟩)
    (fun x₀ ε hε => ⟨1, by norm_num, fun y _ => by simpa [Mtri] using hε⟩)
    (fun x => rfl) (fun x => rfl) mysqrt_strictMono
    (fun x hx => by
      show 0 ≤ mysqrt x
      unfold mysqrt
      split
      · linarith
      · rename_i hge
        have := not_lt.mp hge
        linarith)
    triShape
  have htri := triangle_perimeter_limit_at_one Mtri triShape rfl
    (by norm_num [triShape]) (by norm_num [triShape]) hL
  obtain ⟨δ, hδ, hall⟩ := h2 5 (by norm_num)
  obtain ⟨δ', hδ', hall'⟩ := htri.1 5 (by norm_num)
  have ha_lt1 : max (1 - δ/2) (1 - δ'/2) < 1 := max_lt (by linarith) (by linarith)
  have ha1 : 1 - δ < max (1 - δ/2) (1 - δ'/2) :=
    lt_of_lt_of_le (by linarith) (le_max_left _ _)
  have ha1' : 1 - δ' < max (1 - δ/2) (1 - δ'/2) :=
    lt_of_lt_of_le (by linarith) (le_max_right _ _)
  have hA := (hall _ ha1 ha_lt1).1
  have hB := (hall' _ ha1' ha_lt1).1
  rw [htri.2.1] at hA
  simp only [triShape] at hA hB
  norm_num at hA hB
  rw [abs_lt] at hA hB
  linarith [hA.1, hA.2, hB.1, hB.2]

/-- C4 (amended).  The wraparound behavior, per shape kind: the circle
(given ε–δ-continuous and 2π-periodic `cos`/`sin`) and the square (positive
dimensions) are continuous at the anchor-1 wraparound — the anchor→1 limit is
the anchor-0 point, for the square the top-left start corner of the first
edge.  The triangle is not: its anchor→1 limit exists but is the top-center
apex (the far end of the right edge), while anchor 0 is the bottom-left
vertex, a different point. -/
theorem anchor_one_limit_by_kind :
    (∀ M : JsMath,
      (∀ x₀ ε : ℚ, 0 < ε →
        ∃ δ, 0 < δ ∧ ∀ y, |y - x₀| < δ → |M.cos y - M.cos x₀| < ε) →
      (∀ x₀ ε : ℚ, 0 < ε →
        ∃ δ, 0 < δ ∧ ∀ y, |y - x₀| < δ → |M.sin y - M.sin x₀| < ε) →
      (∀ x, M.cos (x + M.pi * 2) = M.cos x) →
      (∀ x, M.sin (x + M.pi * 2) = M.sin x) →
      ∀ shape : BaseShape, shape.type = ShapeType.circle →
        TendstoAtOneLeft (fun a => getAnchorPosition M shape { position := a })
          (getAnchorPosition M shape { position := 0 })) ∧
    (∀ (M : JsMath) (shape : BaseShape), shape.type = ShapeType.square →
      0 < shape.width.getD 40 → 0 < shape.height.getD 40 →
        TendstoAtOneLeft (fun a => getAnchorPosition M shape { position := a })
          (getAnchorPosition M shape { position := 0 })) ∧
    (∀ (M : JsMath) (shape : BaseShape), shape.type = ShapeType.triangle →
      0 < shape.width.getD 40 → 0 < shape.height.getD 40 →
      0 < M.sqrt ((shape.width.getD 40 / 2) ^ 2 + shape.height.getD 40 ^ 2) →
        TendstoAtOneLeft (fun a => getAnchorPosition M shape { position := a })
          { x := shape.x + shape.width.getD 40 / 2, y := shape.y } ∧
        getAnchorPosition M shape { position := 0 }
          = { x := shape.x, y := shape.y + shape.height.getD 40 } ∧
        ({ x := shape.x + shape.width.getD 40 / 2, y := shape.y } : Point)
          ≠ { x := shape.x, y := shape.y + shape.height.getD 40 }) :=
  ⟨fun M hcc hsc hcp hsp shape hc =>
      circle_perimeter_continuous_at_one M hcc hsc hcp hsp shape hc,
    fun M shape hsq hw hh =>
      square_perimeter_continuous_at_one M shape hsq hw hh,
    fun M shape htr hw hh hL =>
      triangle_perimeter_limit_at_one M shape htr hw hh hL⟩


/-- Witness for `anchor_one_limit_by_kind`: the default square under `Msq`
is continuous at the wraparound, and the default triangle under `Mtri`
starts at the bottom-left vertex. -/
theorem anchor_one_limit_by_kind_w :
    sqShape.type = ShapeType.square ∧
    (0:ℚ) < sqShape.width.getD 40 ∧ (0:ℚ) < sqShape.height.getD 40 ∧
    TendstoAtOneLeft (fun a => getAnchorPosition Msq sqShape { position := a })
      (getAnchorPosition Msq sqShape { position := 0 }) ∧
    triShape.type = ShapeType.triangle ∧
    0 < Mtri.sqrt ((triShape.width.getD 40 / 2) ^ 2 + triShape.height.getD 40 ^ 2) ∧
    getAnchorPosition Mtri triShape { position := 0 }
      = { x := triShape.x, y := triShape.y + triShape.height.getD 40 } :=
  ⟨rfl, by norm_num [sqShape], by norm_num [sqShape],
    anchor_one_limit_by_kind.2.1 Msq sqShape rfl
      (by norm_num [sqShape]) (by norm_num [sqShape]),
    rfl, by norm_num [Mtri, mysqrt, triShape],
    (anchor_one_limit_by_kind.2.2 Mtri triShape rfl
      (by norm_num [triShape]) (by norm_num [triShape])
      (by norm_num [Mtri, mysqrt, triShape])).2.1⟩

end LoadingUtils
